import Mathlib

/-!
# Verification of the ts-interface-checker validator engine

A shallow embedding of the runtime type-validator:

* `Value` — the dynamic (JavaScript-like) values being validated.
* `Ctx` — the diagnostic context.  The repository's `util.ts` (NoopContext /
  DetailContext) is not among the provided sources, so the context is modelled
  from the specification (§4.1, §7, §9): `fail` pushes a frame and marks the
  context failed; `fork` starts an isolated child; `completeFork` merges the
  child back and reports "still recoverable" (true — forks accumulate, they do
  not short-circuit, per §9); `failed` reports whether any frame was recorded.
* `TType` — the type-node algebra from `types.ts` (`src/unnamed/part_000`).
* `checkValue` — the runtime denotation of the compiled checker closures
  (`TType.getChecker(suite, strict, isPartial, allowedProps)` applied to a
  value and a context), as a fuel-indexed interpreter.  Fuel models the
  runtime recursion through `TName` resolution; `none` means the computation
  does not finish within the given fuel (the real checkers can genuinely
  diverge for pathological suites such as `X = name "X")`.
* `compileChecker` — the compile-time phase of `getChecker`: the trampoline
  on `TName` nodes (the `building` list holds the names whose checker is
  currently being built, i.e. those with `_checkerBeingBuilt` installed) and
  the compile-time errors (`Unknown type …`, enumlit errors, `Rest type must
  be an array`).
-/

namespace TSIC

/-! ## Diagnostic context (modelled from the spec) -/

/-- A relative path element (`RelPath` in the source): property name or index. -/
inductive RKey where
  | name (s : String)
  | index (i : Nat)
  deriving DecidableEq, Repr

/-- Modelled from the spec: a diagnostic frame `(key, message, score)` (§4.1). -/
structure Frame where
  key : Option RKey
  msg : Option String
  score : Int
  deriving DecidableEq, Repr

/-- Modelled from the spec: the diagnostic context (`util.ts` is not among the
provided sources).  One structure serves for both `NoopContext` and
`DetailContext`: `failed` is the observable used by checkers, `frames` the
recorded diagnostics (ignored by the noop uses). -/
structure Ctx where
  failed : Bool
  frames : List Frame
  deriving DecidableEq, Repr

/-- A fresh context (also the state of a fresh `ctx.fork()` child). -/
def Ctx.empty : Ctx := ⟨false, []⟩

/-- `ctx.fail(key, message, score)`: push a frame, mark failed (returns `false`
to the caller; the boolean is produced at the call sites of `checkValue`). -/
def Ctx.fail (c : Ctx) (k : Option RKey) (m : Option String) (s : Int) : Ctx :=
  ⟨true, c.frames ++ [⟨k, m, s⟩]⟩

/-- `ctx.completeFork()` merging a finished fork child back into its parent
(modelled from the spec §4.1/§9: forks isolate, they do not short-circuit;
the merged state is failed iff either side is). -/
def Ctx.mergeFork (p c : Ctx) : Ctx := ⟨p.failed || c.failed, p.frames ++ c.frames⟩

/-! ## Values -/

/-- Dynamic values (the `value: any` being validated). `func` stands for any
callable; arrays and objects are finite structural data. -/
inductive Value where
  | undef
  | vnull
  | bool (b : Bool)
  | num (n : Int)
  | str (s : String)
  | arr (items : List Value)
  | obj (fields : List (String × Value))
  | func
  deriving Repr

/-- JavaScript `===` on the values a `TLiteral` / enum member ranges over.
Arrays/objects compare by reference in JS; two structurally-built values are
distinct references, modelled as `false`. -/
def jsStrictEq : Value → Value → Bool
  | .undef, .undef => true
  | .vnull, .vnull => true
  | .bool a, .bool b => a == b
  | .num a, .num b => a == b
  | .str a, .str b => a == b
  | _, _ => false

/-- `Array.isArray(v)`. -/
def isArray : Value → Bool
  | .arr _ => true
  | _ => false

/-- `typeof v === "object" && value !== null` (the `TIface` object gate).
`typeof` is `"object"` for objects, arrays and `null`; the explicit null
comparison excludes `null`. -/
def isObjectLike : Value → Bool
  | .obj _ => true
  | .arr _ => true
  | _ => false

/-- `value[name]` for a string key (absent keys give `undefined`; array
indices are addressed by their numeral strings, plus `length`). -/
def getProp : Value → String → Value
  | .obj fields, n =>
    match fields.lookup n with
    | some v => v
    | none => .undef
  | .arr items, n =>
    if n = "length" then .num items.length
    else
      match n.toNat? with
      | some i => (items.get? i).getD .undef
      | none => .undef
  | _, _ => (.undef : Value)

/-- `value[i]` for a numeric index. -/
def getIdx : Value → Nat → Value
  | .arr items, i => (items.get? i).getD .undef
  | _, _ => (.undef : Value)

/-- The keys enumerated by `for (const prop in value)` (own enumerable keys,
in insertion order; array indices as strings). -/
def ownKeys : Value → List String
  | .obj fields => fields.map (·.1)
  | .arr items => (List.range items.length).map (fun i => toString i)
  | _ => []

/-! ## Basic types (`BasicType` and the `basicTypes` suite) -/

/-- The built-in basic types expressible over `Value` (`basicTypes` in the
source; `symbol`, `Date`, `RegExp`, `Buffer` and the typed arrays need host
object identity and are outside the value model). -/
inductive BasicKind where
  | any | unknown | number | object | boolean | string | void | undefinedT | nullT | never
  deriving DecidableEq, Repr

/-- The validator of each basic type (source lines 533-548). -/
def BasicKind.validator : BasicKind → Value → Bool
  | .any, _ => true
  | .unknown, _ => true
  | .number, v => match v with | .num _ => true | _ => false
  | .object, v => match v with | .obj _ => true | .arr _ => true | _ => false
  | .boolean, v => match v with | .bool _ => true | _ => false
  | .string, v => match v with | .str _ => true | _ => false
  | .void, v => match v with | .undef => true | .vnull => true | _ => false
  | .undefinedT, v => match v with | .undef => true | _ => false
  | .nullT, v => match v with | .vnull => true | _ => false
  | .never, _ => false

/-- The failure message of each basic type. -/
def BasicKind.failMsg : BasicKind → String
  | .any => "is invalid"
  | .unknown => "is invalid"
  | .number => "is not a number"
  | .object => "is not an object"
  | .boolean => "is not a boolean"
  | .string => "is not a string"
  | .void => "is not void"
  | .undefinedT => "is not undefined"
  | .nullT => "is not null"
  | .never => "is unexpected"

/-! ## The type-node algebra -/

mutual
/-- The type nodes (`TType` subclasses in the source).  Interface properties
and function parameters are `(name, type, isOpt)` triples (`TProp`/`TParam`).
`trest` is `RestType` with its mutable `_start` slot; `ttuple` is `TTuple`
after its constructor ran (`restType` holds the lifted tail with its start).
`tpart` is `TPartial`, `toption` is `TOptional`, `tfunc` is `TFunc` (holding
its `TParamList` and result for the facade), `tparamlist` is `TParamList`. -/
inductive TType where
  | basic (k : BasicKind)
  | tname (n : String)
  | literal (v : Value)
  | tarray (t : TType)
  | trest (spec : TSpec) (start : Option Nat)
  | ttuple (ttypes : List TType) (restType : Option (TSpec × Nat))
  | tunion (ts : List TType)
  | tinter (ts : List TType)
  | tpart (t : TType)
  | tenum (members : List (String × Value))
  | tenumlit (enumName : String) (member : String)
  | tiface (bases : List String) (props : List (String × TType × Bool))
      (indexType : Option TType)
  | toption (t : TType)
  | tfunc (params : List (String × TType × Bool)) (result : TType)
  | tparamlist (params : List (String × TType × Bool))
  deriving Repr

/-- A `TypeSpec` as stored raw by `RestType`: a plain string (a name, resolved
through the suite by `getNamedType` at compile time) or a type node. -/
inductive TSpec where
  | sname (s : String)
  | sty (t : TType)
  deriving Repr
end

/-- A type suite: names mapped to type nodes (first binding wins on lookup). -/
abbrev Suite := List (String × TType)

/-- `getNamedType(suite, name)` minus the throw (the throw is modelled in
`compileChecker`; at runtime an unresolved name makes `checkValue` stuck). -/
def luSuite (s : Suite) (n : String) : Option TType :=
  List.lookup n s

/-- The built-in `basicTypes` suite (the part expressible over `Value`). -/
def basicTypes : Suite :=
  [("any", .basic .any), ("unknown", .basic .unknown), ("number", .basic .number),
   ("object", .basic .object), ("boolean", .basic .boolean), ("string", .basic .string),
   ("void", .basic .void), ("undefined", .basic .undefinedT), ("null", .basic .nullT),
   ("never", .basic .never)]

/-- `createCheckers` merges the user suites over `basicTypes`
(`Object.assign({}, basicTypes, ...typeSuite)`: user entries win). -/
def fullSuite (user : Suite) : Suite := user ++ basicTypes

/-- The `TTuple` constructor: if the last element is a `RestType`, pop it,
store it aside and set its `_start` to the remaining fixed length. -/
def mkTuple (raw : List TType) : TType :=
  match raw.getLast? with
  | some (.trest spec _) => .ttuple raw.dropLast (some (spec, raw.dropLast.length))
  | _ => .ttuple raw none

/-! ## Union failure message (`TUnion` constructor) -/

/-- `JSON.stringify` on the scalar literals modelled (escape-free strings).
`undefined` has no JSON representation (the source gets `undefined`). -/
def jsonStr : Value → Option String
  | .undef => none
  | .vnull => some "null"
  | .bool b => some (toString b)
  | .num n => some (toString n)
  | .str s => some ("\"" ++ s ++ "\"")
  | _ => none

/-- `getTypeName` (source lines 572-576) together with the name computation
of the `TLiteral` and `TArray` constructors. -/
def getTypeName : TType → Option String
  | .tname n => some n
  | .literal v => jsonStr v
  | .tarray t =>
    match getTypeName t with
    | some n => if n = "" then none else some (n ++ "[]")
    | none => none
  | _ => none

/-- The `_failMsg` computed by the `TUnion` constructor (lines 216-228).
The TS `filter((n) => n)` drops both `undefined` and the empty string. -/
def unionFailMsg (ts : List TType) : String :=
  let names := (ts.filterMap getTypeName).filter (fun n => n ≠ "")
  let others := ts.length - names.length
  if names.isEmpty then
    "is none of " ++ toString others ++ " types"
  else
    let names2 := if others > 0 then names ++ [toString others ++ " more"] else names
    "is none of " ++ String.intercalate ", " names2

/-! ## Union resolution (modelled from the spec §4.1/§7) -/

/-- Modelled from the spec: the cumulative score of a failed branch. -/
def ctxScore (c : Ctx) : Int := (c.frames.map (·.score)).sum

/-- Modelled from the spec: branch `c` beats the incumbent `acc` when its
cumulative score is higher (the scores weight depth of descent positively and
literal/enum mismatches negatively); ties keep the earlier branch. -/
def betterBranch (c acc : Ctx) : Bool :=
  ctxScore c > ctxScore acc

/-- Modelled from the spec: `resolveUnion` picks the most informative failed
branch among the children contexts. -/
def pickBest : List Ctx → Option Ctx
  | [] => none
  | c :: cs => some (cs.foldl (fun acc x => if betterBranch x acc then x else acc) c)

/-! ## Generic loop shapes of the compiled checkers

Each closure in `types.ts` iterates with one of a handful of loop shapes;
they are factored out here as higher-order functions so that `checkValue`
stays structurally recursive on its fuel. -/

/-- The `TArray` item loop (also the `RestType` tail loop, with an index
offset): run the item checker on each element in sequence on the threaded
context; on the first item failure, `return ctx.fail(i, null, 1)`. -/
def arrayLoop (check : Value → Ctx → Option (Bool × Ctx)) :
    List Value → Nat → Ctx → Option (Bool × Ctx)
  | [], _, ctx => some (true, ctx)
  | v :: vs, i, ctx =>
    match check v ctx with
    | none => none
    | some (true, c) => arrayLoop check vs (i + 1) c
    | some (false, c) => some (false, c.fail (some (.index i)) none 1)

/-- The `TTuple` fixed-position loop: for each declared position, fetch
`value[i]` (possibly `undefined`) and run that position's checker; on
failure, `return ctx.fail(i, null, 1)`. -/
def tupleLoop (check : TType → Value → Ctx → Option (Bool × Ctx)) (items : List Value) :
    List TType → Nat → Ctx → Option (Bool × Ctx)
  | [], _, ctx => some (true, ctx)
  | t :: ts, i, ctx =>
    match check t (getIdx (.arr items) i) ctx with
    | none => none
    | some (true, c) => tupleLoop check items ts (i + 1) c
    | some (false, c) => some (false, c.fail (some (.index i)) none 1)

/-- The `TUnion` alternative loop: run each alternative in a fresh child of
the union resolver; stop at the first success (`some none`), otherwise return
all the failed children (`some (some children)`). -/
def unionLoop (check : TType → Option (Bool × Ctx)) :
    List TType → List Ctx → Option (Option (List Ctx))
  | [], acc => some (some acc.reverse)
  | t :: ts, acc =>
    match check t with
    | none => none
    | some (true, _) => some none
    | some (false, c) => unionLoop check ts (c :: acc)

/-- The fork-and-merge loop (`ctx.fork()` … `ctx.completeFork()`): run each
step in an isolated child and merge it back; `completeFork` always reports
recoverable (spec §9), so every element is visited. -/
def forkAll (step : α → Option Ctx) : List α → Ctx → Option Ctx
  | [], ctx => some ctx
  | x :: xs, ctx =>
    match step x with
    | none => none
    | some child => forkAll step xs (ctx.mergeFork child)

/-- One step of the `TIface` property loop (source lines 387-405), run on a
fresh fork: a missing value fails with `is missing` when the property is
required and the check is not inside a `Partial`; a present value runs the
property checker and annotates a failure with the property name. -/
def propStep (check : TType → Value → Ctx → Option (Bool × Ctx)) (isPart : Bool)
    (v : Value) : (String × TType × Bool) × Bool → Option Ctx
  | ((pname, pty, _), req) =>
    match getProp v pname with
    | .undef =>
      if req && !isPart then some (Ctx.empty.fail (some (.name pname)) (some "is missing") 1)
      else some Ctx.empty
    | pv =>
      match check pty pv Ctx.empty with
      | none => none
      | some (true, c) => some c
      | some (false, c) => some (c.fail (some (.name pname)) none 1)

/-- One step of the `TIface` index-signature loop (lines 406-415), on a fresh
fork: check `value[prop]` against the index type, annotating failures with
the key. -/
def indexStep (check : Value → Ctx → Option (Bool × Ctx)) (v : Value) (key : String) :
    Option Ctx :=
  match check (getProp v key) Ctx.empty with
  | none => none
  | some (true, c) => some c
  | some (false, c) => some (c.fail (some (.name key)) none 1)

/-- One step of the strict-mode extraneous-key loop (lines 416-425): a key
outside `allowedProps` fails with `is extraneous` (score 2) on a fork. -/
def extraStep (allowed : List String) (key : String) : Option Ctx :=
  if allowed.contains key then some Ctx.empty
  else some (Ctx.empty.fail (some (.name key)) (some "is extraneous") 2)

/-- The `checker` closure shared by the `TTuple` branches (lines 182-189):
the `Array.isArray` gate followed by the fixed-position loop. -/
def tupleBase (check : TType → Value → Ctx → Option (Bool × Ctx)) (ttypes : List TType)
    (v : Value) (c : Ctx) : Option (Bool × Ctx) :=
  match v with
  | .arr items => tupleLoop check items ttypes 0 c
  | _ => some (false, c.fail none (some "is not an array") 0)

/-- The `TParamList` loop (lines 495-507): positions are checked on the
threaded context (no forks); `undefined` at a required position fails with
`is missing` at the parameter name, `undefined` at an optional position is
skipped, and a present value runs the parameter checker. -/
def paramLoop (check : TType → Value → Ctx → Option (Bool × Ctx)) (items : Value) :
    List ((String × TType × Bool) × Bool) → Nat → Ctx → Option (Bool × Ctx)
  | [], _, ctx => some (true, ctx)
  | ((pname, pty, _), req) :: ps, i, ctx =>
    match getIdx items i with
    | .undef =>
      if req then some (false, ctx.fail (some (.name pname)) (some "is missing") 1)
      else paramLoop check items ps (i + 1) ctx
    | vi =>
      match check pty vi ctx with
      | none => none
      | some (true, c) => paramLoop check items ps (i + 1) c
      | some (false, c) => some (false, c.fail (some (.name pname)) none 1)

/-- The `checker` closure of `TParamList` (lines 495-507): the
`Array.isArray` gate followed by the parameter loop. -/
def paramBase (check : TType → Value → Ctx → Option (Bool × Ctx))
    (psr : List ((String × TType × Bool) × Bool)) (v : Value) (c : Ctx) :
    Option (Bool × Ctx) :=
  match v with
  | .arr _ => paramLoop check v psr 0 c
  | _ => some (false, c.fail none (some "is not an array") 0)

/-! ## allowedProps accumulation

In the source, `allowedProps` is one mutable `Set<string>` born at the first
`TIface`/`TIntersection` compiled without an inherited set, and threaded
through bases, union alternatives, intersection conjuncts and `TName`
indirections.  By the time any compiled checker runs, the set holds every
contribution from the whole sharing region, so the runtime content can be
computed up front. -/

/-- The property names a node's compilation adds to an inherited
`allowedProps` set (fuel cuts name cycles, where the source's trampoline
makes the re-entered addition a no-op). -/
def collectAllowed : Nat → Suite → TType → List String
  | 0, _, _ => []
  | f + 1, suite, t =>
    match t with
    | .tname n =>
      match luSuite suite n with
      | none => []
      | some tt => collectAllowed f suite tt
    | .tunion ts => (ts.map (fun t' => collectAllowed f suite t')).flatten
    | .tinter ts => (ts.map (fun t' => collectAllowed f suite t')).flatten
    | .tiface bases props _ =>
      props.map (·.1) ++
        (bases.map (fun b =>
          match luSuite suite b with
          | none => []
          | some bt => collectAllowed f suite bt)).flatten
    | _ => []

/-! ## The runtime checker -/

/-- The runtime denotation of the compiled checker
`ttype.getChecker(suite, strict, isPartial, allowedProps)` applied to
`(value, ctx)`.  `allowed = none` means no inherited `allowedProps` set (the
node births its own region, as the source defaults do); fuel bounds the
recursion through `TName` indirections and nested data, `none` meaning the
computation does not finish.  Compile-time throws (unknown names, enumlit
errors, a non-array `Rest`) leave the checker unbuildable, modelled as `none`
here and as explicit errors in `compileChecker`. -/
def checkValue : Nat → Suite → Bool → Bool → Option (List String) → TType → Value → Ctx →
    Option (Bool × Ctx)
  | 0, _, _, _, _, _, _, _ => none
  | f + 1, suite, strict, isPart, allowed, t, v, ctx =>
    match t with
    | .basic k =>
      if k.validator v then some (true, ctx)
      else some (false, ctx.fail none (some k.failMsg) 0)
    | .tname n =>
      match luSuite suite n with
      | none => none
      | some tt =>
        match checkValue f suite strict isPart allowed tt v ctx with
        | none => none
        | some (b, c) =>
          match tt with
          | .basic _ => some (b, c)
          | .tname _ => some (b, c)
          | _ =>
            if b then some (true, c)
            else some (false, c.fail none (some ("is not a " ++ n)) 0)
    | .literal lv =>
      if jsStrictEq v lv then some (true, ctx)
      else
        some (false, ctx.fail none (some ("is not " ++ ((jsonStr lv).getD "undefined"))) (-1))
    | .tarray it =>
      match v with
      | .arr items =>
        arrayLoop (fun w c => checkValue f suite strict false none it w c) items 0 ctx
      | _ => some (false, ctx.fail none (some "is not an array") 0)
    | .trest spec start =>
      match (match spec with | .sname s => luSuite suite s | .sty st => some st) with
      | some (.tarray it) =>
        match start with
        | none => some (true, ctx)
        | some s =>
          match v with
          | .arr items =>
            arrayLoop (fun w c => checkValue f suite strict false none it w c)
              (items.drop s) s ctx
          | _ => some (true, ctx)
      | _ => none
    | .ttuple ttypes restType =>
      match restType with
      | some (spec, start) =>
        match tupleBase (fun t' w c' => checkValue f suite strict false none t' w c')
            ttypes v ctx with
        | none => none
        | some (false, c) => some (false, c)
        | some (true, c) =>
          checkValue f suite strict false none (.trest spec (some start)) v c
      | none =>
        if strict then
          match tupleBase (fun t' w c' => checkValue f suite strict false none t' w c')
              ttypes v ctx with
          | none => none
          | some (false, c) => some (false, c)
          | some (true, c) =>
            match v with
            | .arr items =>
              if items.length ≤ ttypes.length then some (true, c)
              else some (false, c.fail (some (.index ttypes.length)) (some "is extraneous") 2)
            | _ => some (true, c)
        else
          tupleBase (fun t' w c' => checkValue f suite strict false none t' w c')
            ttypes v ctx
    | .tunion ts =>
      match unionLoop (fun t' => checkValue f suite strict isPart allowed t' v Ctx.empty)
          ts [] with
      | none => none
      | some none => some (true, ctx)
      | some (some children) =>
        let promoted : Ctx :=
          match pickBest children with
          | none => ctx
          | some b => ⟨ctx.failed, ctx.frames ++ b.frames⟩
        some (false, promoted.fail none (some (unionFailMsg ts)) 0)
    | .tinter ts =>
      let shared : List String :=
        match allowed with
        | some s => s
        | none => collectAllowed (f + 1) suite (.tinter ts)
      match forkAll
          (fun t' => (checkValue f suite strict isPart (some shared) t' v Ctx.empty).map (·.2))
          ts ctx with
      | none => none
      | some c => some (!c.failed, c)
    | .tpart t' =>
      match v with
      | .undef => some (true, ctx)
      | _ => checkValue f suite strict true none t' v ctx
    | .tenum members =>
      if members.any (fun m => jsStrictEq m.2 v) then some (true, ctx)
      else some (false, ctx.fail none (some "is not a valid enum value") 0)
    | .tenumlit en p =>
      match luSuite suite en with
      | some (.tenum ms) =>
        match ms.lookup p with
        | some val =>
          if jsStrictEq v val then some (true, ctx)
          else some (false, ctx.fail none (some ("is not " ++ en ++ "." ++ p)) (-1))
        | none => none
      | _ => none
    | .tiface bases props indexType =>
      let shared : List String :=
        match allowed with
        | some s => s
        | none => collectAllowed (f + 1) suite (.tiface bases props indexType)
      match bases.mapM (fun b => luSuite suite b) with
      | none => none
      | some baseTs =>
        match props.mapM (fun p =>
            (checkValue f suite strict isPart none p.2.1 .undef Ctx.empty).map
              (fun r => !p.2.2 && !r.1)) with
        | none => none
        | some reqs =>
          if isObjectLike v then
            match forkAll
                (fun bt => (checkValue f suite strict isPart (some shared) bt v Ctx.empty).map
                  (·.2))
                baseTs ctx with
            | none => none
            | some c1 =>
              match forkAll
                  (propStep (fun t' w c => checkValue f suite strict isPart none t' w c)
                    isPart v)
                  (props.zip reqs) c1 with
              | none => none
              | some c2 =>
                match indexType with
                | some ixt =>
                  match forkAll
                      (indexStep (fun w c => checkValue f suite strict isPart none ixt w c) v)
                      (ownKeys v) c2 with
                  | none => none
                  | some c3 => some (!c3.failed, c3)
                | none =>
                  if strict then
                    match forkAll (fun k => extraStep shared k) (ownKeys v) c2 with
                    | none => none
                    | some c3 => some (!c3.failed, c3)
                  else some (!c2.failed, c2)
          else some (false, ctx.fail none (some "is not an object") 0)
    | .toption t' =>
      match v with
      | .undef => some (true, ctx)
      | _ => checkValue f suite strict false none t' v ctx
    | .tfunc _ _ =>
      match v with
      | .func => some (true, ctx)
      | _ => some (false, ctx.fail none (some "is not a function") 0)
    | .tparamlist params =>
      match params.mapM (fun p =>
          (checkValue f suite strict false none p.2.1 .undef Ctx.empty).map
            (fun r => !p.2.2 && !r.1)) with
      | none => none
      | some reqs =>
        if strict then
          match paramBase (fun t' w c' => checkValue f suite strict false none t' w c')
              (params.zip reqs) v ctx with
          | none => none
          | some (false, c) => some (false, c)
          | some (true, c) =>
            match v with
            | .arr items =>
              if items.length ≤ params.length then some (true, c)
              else some (false, c.fail (some (.index params.length)) (some "is extraneous") 2)
            | _ => some (true, c)
        else
          paramBase (fun t' w c' => checkValue f suite strict false none t' w c')
            (params.zip reqs) v ctx

/-! ## Rendering (`getError` / `getErrorDetails`, modelled from the spec §7) -/

/-- Render one path element: numeric keys as `[i]`, string keys as `.name`,
null/empty keys contribute nothing. -/
def renderKey : Option RKey → String
  | some (.index i) => "[" ++ toString i ++ "]"
  | some (.name s) => if s = "" then "" else "." ++ s
  | none => ""

/-- Modelled from the spec: frames are arranged leaf-first; walking them
outermost-first assembles the path, and each frame carrying a message yields
a `{path, message}` detail. -/
def renderDetails (root : String) (frames : List Frame) : List (String × String) :=
  (frames.reverse.foldl
    (fun (acc : String × List (String × String)) fr =>
      let p := acc.1 ++ renderKey fr.key
      match fr.msg with
      | some m => (p, acc.2 ++ [(p, m)])
      | none => (p, acc.2))
    (root, [])).2

/-- Modelled from the spec: the single error produced by `getError` (the path
plus the deepest recorded message). -/
def getErrorOf (root : String) (frames : List Frame) : String × String :=
  match (renderDetails root frames).getLast? with
  | none => (root, "is invalid")
  | some d => d

/-! ## The checker facade (`Checker` in `src/lib/index.ts`)

The facade holds two compiled checkers (plain and strict) of the same type
node; `test` runs the checker in a fresh noop context, `validate`/`check`
first run a noop pass and only on failure re-run with a detail context.  In
this model the context is unified, so the probe run and the detail run are
the same computation. -/

/-- `Checker.test` / `Checker.strictTest` (strict selects the strict-compiled
checker): run the compiled checker on a fresh context, return the boolean. -/
def testV (f : Nat) (suite : Suite) (strict : Bool) (t : TType) (v : Value) : Option Bool :=
  (checkValue f suite strict false none t v Ctx.empty).map (·.1)

/-- `Checker.validate` / `strictValidate` (`_doValidate`): noop pass first;
`null` on success, otherwise re-run on a detail context and render the
details.  `some none` is `null` (valid); the outer `none` means the checker
did not finish. -/
def validateV (f : Nat) (suite : Suite) (strict : Bool) (t : TType) (v : Value) :
    Option (Option (List (String × String))) :=
  match checkValue f suite strict false none t v Ctx.empty with
  | none => none
  | some (true, _) => some none
  | some (false, _) =>
    match checkValue f suite strict false none t v Ctx.empty with
    | none => none
    | some (_, c) => some (some (renderDetails "value" c.frames))

/-- `Checker.check` / `strictCheck` (`_doCheck`): noop pass first; on failure
re-run with a detail context and throw its error.  `some none` means a normal
return (no throw), `some (some e)` the thrown error. -/
def checkThrows (f : Nat) (suite : Suite) (strict : Bool) (t : TType) (v : Value) :
    Option (Option (String × String)) :=
  match checkValue f suite strict false none t v Ctx.empty with
  | none => none
  | some (true, _) => some none
  | some (false, _) =>
    match checkValue f suite strict false none t v Ctx.empty with
    | none => none
    | some (_, c) => some (some (getErrorOf "value" c.frames))

/-! ## The compile-time phase of `getChecker` -/

/-- What a `getChecker` call returns in the compile-phase model: the
in-progress trampoline thunk (re-entrant call on a `TName` being built), or a
fully built checker. -/
inductive CompileRes where
  | thunk
  | built
  deriving DecidableEq, Repr

/-- Sequence compile steps over children, propagating fuel exhaustion and the
first thrown error (compilation of a node compiles all its children). -/
def compileSeq (comp : TType → Option (Except String CompileRes)) :
    List TType → Option (Except String CompileRes)
  | [] => some (.ok .built)
  | t :: ts =>
    match comp t with
    | none => none
    | some (.error e) => some (.error e)
    | some (.ok _) => compileSeq comp ts

/-- The compile-time phase of `ttype.getChecker(suite, …)`: name resolution
(`getNamedType` throws `Unknown type …`), the enumlit checks, the `Rest type
must be an array` check, and the recursion trampoline on `TName` nodes —
`building` lists the names whose `_checkerBeingBuilt` thunk is currently
installed, and a re-entrant call on such a name returns the thunk at once
(before any recursion).  `none` is non-termination within the fuel;
`some (.error e)` a compile-time throw; `some (.ok r)` success.  The strict /
isPartial / allowedProps arguments do not influence which compile steps run,
so they are omitted. -/
def compileChecker : Nat → List String → Suite → TType → Option (Except String CompileRes)
  | f, building, suite, .tname n =>
    if building.contains n then some (.ok .thunk)
    else
      match f with
      | 0 => none
      | f' + 1 =>
        match luSuite suite n with
        | none => some (.error ("Unknown type " ++ n))
        | some tt =>
          match compileChecker f' (n :: building) suite tt with
          | none => none
          | some (.error e) => some (.error e)
          | some (.ok _) => some (.ok .built)
  | _, _, _, .basic _ => some (.ok .built)
  | _, _, _, .literal _ => some (.ok .built)
  | _, _, _, .tenum _ => some (.ok .built)
  | _, _, suite, .tenumlit en p =>
    match luSuite suite en with
    | none => some (.error ("Unknown type " ++ en))
    | some (.tenum ms) =>
      match ms.lookup p with
      | some _ => some (.ok .built)
      | none => some (.error ("Unknown value " ++ en ++ "." ++ p ++ " used in enumlit"))
    | some _ => some (.error ("Type " ++ en ++ " used in enumlit is not an enum type"))
  | _, _, _, .tfunc _ _ => some (.ok .built)
  | f, building, suite, .tarray t =>
    match f with
    | 0 => none
    | f' + 1 =>
      match compileChecker f' building suite t with
      | none => none
      | some (.error e) => some (.error e)
      | some (.ok _) => some (.ok .built)
  | f, building, suite, .trest spec _ =>
    match (match spec with
      | .sname s => (luSuite suite s).elim (Except.error ("Unknown type " ++ s)) .ok
      | .sty st => .ok st : Except String TType) with
    | .error e => some (.error e)
    | .ok (.tarray it) =>
      match f with
      | 0 => none
      | f' + 1 =>
        match compileChecker f' building suite it with
        | none => none
        | some (.error e) => some (.error e)
        | some (.ok _) => some (.ok .built)
    | .ok _ => some (.error "Rest type must be an array")
  | f, building, suite, .ttuple ttypes restType =>
    match f with
    | 0 => none
    | f' + 1 =>
      match compileSeq (fun t => compileChecker f' building suite t) ttypes with
      | none => none
      | some (.error e) => some (.error e)
      | some (.ok _) =>
        match restType with
        | none => some (.ok .built)
        | some (spec, start) =>
          match compileChecker f' building suite (.trest spec (some start)) with
          | none => none
          | some (.error e) => some (.error e)
          | some (.ok _) => some (.ok .built)
  | f, building, suite, .tunion ts =>
    match f with
    | 0 => none
    | f' + 1 =>
      match compileSeq (fun t => compileChecker f' building suite t) ts with
      | none => none
      | some (.error e) => some (.error e)
      | some (.ok _) => some (.ok .built)
  | f, building, suite, .tinter ts =>
    match f with
    | 0 => none
    | f' + 1 =>
      match compileSeq (fun t => compileChecker f' building suite t) ts with
      | none => none
      | some (.error e) => some (.error e)
      | some (.ok _) => some (.ok .built)
  | f, building, suite, .tpart t =>
    match f with
    | 0 => none
    | f' + 1 =>
      match compileChecker f' building suite t with
      | none => none
      | some (.error e) => some (.error e)
      | some (.ok _) => some (.ok .built)
  | f, building, suite, .toption t =>
    match f with
    | 0 => none
    | f' + 1 =>
      match compileChecker f' building suite t with
      | none => none
      | some (.error e) => some (.error e)
      | some (.ok _) => some (.ok .built)
  | f, building, suite, .tiface bases props indexType =>
    match f with
    | 0 => none
    | f' + 1 =>
      match bases.mapM (fun b => luSuite suite b) with
      | none =>
        some (.error ("Unknown type " ++
          (bases.find? (fun b => (luSuite suite b).isNone)).getD ""))
      | some baseTs =>
        match compileSeq (fun t => compileChecker f' building suite t) baseTs with
        | none => none
        | some (.error e) => some (.error e)
        | some (.ok _) =>
          match compileSeq (fun t => compileChecker f' building suite t)
              (props.map (·.2.1)) with
          | none => none
          | some (.error e) => some (.error e)
          | some (.ok _) =>
            match indexType with
            | none => some (.ok .built)
            | some ixt =>
              match compileChecker f' building suite ixt with
              | none => none
              | some (.error e) => some (.error e)
              | some (.ok _) => some (.ok .built)
  | f, building, suite, .tparamlist params =>
    match f with
    | 0 => none
    | f' + 1 =>
      match compileSeq (fun t => compileChecker f' building suite t)
          (params.map (·.2.1)) with
      | none => none
      | some (.error e) => some (.error e)
      | some (.ok _) => some (.ok .built)

/-! ## Frame bookkeeping

The key invariant of every checker run: frames are only appended; the failed
flag is exactly "the incoming context was failed, or new frames appeared";
and, from an unfailed context, the boolean verdict is `true` exactly when no
new frame was recorded. -/

/-- The bookkeeping contract of a checker run. -/
def POk (run : Ctx → Option (Bool × Ctx)) : Prop :=
  ∀ ctx b ctx', run ctx = some (b, ctx') →
    ∃ d, ctx'.frames = ctx.frames ++ d ∧ ctx'.failed = (ctx.failed || !d.isEmpty) ∧
      (ctx.failed = false → (b = true ↔ d = []))

theorem isEmpty_append (a b : List α) : (a ++ b).isEmpty = (a.isEmpty && b.isEmpty) := by
  cases a <;> simp [List.isEmpty]

/-- A successful run from an unfailed context leaves the context unchanged. -/
theorem POk.success_eq {run : Ctx → Option (Bool × Ctx)} (h : POk run) {ctx ctx' : Ctx}
    (hf : ctx.failed = false) (he : run ctx = some (true, ctx')) : ctx' = ctx := by
  obtain ⟨d, h1, h2, h3⟩ := h ctx true ctx' he
  have hd : d = [] := ((h3 hf).mp rfl)
  subst hd
  cases ctx'
  cases ctx
  simp_all

/-- A failing run from an unfailed context records at least one frame. -/
theorem POk.fail_frames {run : Ctx → Option (Bool × Ctx)} (h : POk run) {ctx ctx' : Ctx}
    (hf : ctx.failed = false) (he : run ctx = some (false, ctx')) :
    ctx'.failed = true := by
  obtain ⟨d, h1, h2, h3⟩ := h ctx false ctx' he
  rw [h2, hf]
  cases d with
  | nil => exact nomatch (h3 hf).mpr rfl
  | cons a as => rfl

/-- Composing two bookkeeping-satisfying runs (threaded context). -/
theorem pok_comp {d1 d2 : List Frame} {c0 c1 c2 : Ctx} {b : Bool}
    (h1 : c1.frames = c0.frames ++ d1) (h2 : c1.failed = (c0.failed || !d1.isEmpty))
    (h3 : c0.failed = false → (true = true ↔ d1 = []))
    (g1 : c2.frames = c1.frames ++ d2) (g2 : c2.failed = (c1.failed || !d2.isEmpty))
    (g3 : c1.failed = false → (b = true ↔ d2 = [])) :
    c2.frames = c0.frames ++ (d1 ++ d2) ∧ c2.failed = (c0.failed || !(d1 ++ d2).isEmpty) ∧
      (c0.failed = false → (b = true ↔ d1 ++ d2 = [])) := by
  refine ⟨by rw [g1, h1, List.append_assoc], ?_, ?_⟩
  · rw [g2, h2, isEmpty_append]
    cases c0.failed <;> cases d1.isEmpty <;> cases d2.isEmpty <;> rfl
  · intro hf
    have hd1 : d1 = [] := (h3 hf).mp rfl
    subst hd1
    have hc1 : c1.failed = false := by rw [h2, hf]; rfl
    simpa using g3 hc1

/-- `ctx.fail` satisfies the contract (with verdict `false`). -/
theorem pok_fail (c : Ctx) (k : Option RKey) (m : Option String) (s : Int) :
    (c.fail k m s).frames = c.frames ++ [⟨k, m, s⟩] ∧
      (c.fail k m s).failed = (c.failed || !([⟨k, m, s⟩] : List Frame).isEmpty) := by
  constructor
  · rfl
  · cases hc : c.failed <;> rfl

/-- The failing tail of a loop step: `ctx.fail(key, msg, score)` after a
bookkeeping-satisfying sub-run keeps the contract, with verdict `false`. -/
theorem pok_fail_after {d1 : List Frame} {c0 c1 : Ctx}
    (h1 : c1.frames = c0.frames ++ d1) (_h2 : c1.failed = (c0.failed || !d1.isEmpty))
    (k : Option RKey) (m : Option String) (s : Int) :
    ∃ d, (c1.fail k m s).frames = c0.frames ++ d ∧
      (c1.fail k m s).failed = (c0.failed || !d.isEmpty) ∧
      (c0.failed = false → ((false : Bool) = true ↔ d = [])) := by
  refine ⟨d1 ++ [⟨k, m, s⟩], ?_, ?_, ?_⟩
  · show c1.frames ++ _ = _
    rw [h1, List.append_assoc]
  · show (true : Bool) = _
    rw [isEmpty_append]
    cases hcf : c0.failed <;> cases hd : d1.isEmpty <;> rfl
  · intro _
    constructor
    · intro hcon; exact nomatch hcon
    · intro hcon; exact absurd hcon (by simp)

/-- `arrayLoop` satisfies the contract when the item checker does. -/
theorem arrayLoop_pok {check : Value → Ctx → Option (Bool × Ctx)}
    (h : ∀ v, POk (check v)) (vs : List Value) (i : Nat) :
    POk (arrayLoop check vs i) := by
  induction vs generalizing i with
  | nil =>
    intro ctx b ctx' he
    simp only [arrayLoop] at he
    obtain ⟨rfl, rfl⟩ : b = true ∧ ctx' = ctx := by cases he; exact ⟨rfl, rfl⟩
    exact ⟨[], by simp, by simp, fun _ => by simp⟩
  | cons v vs ih =>
    intro ctx b ctx' he
    rw [arrayLoop] at he
    split at he
    · exact nomatch he
    · rename_i c1 hc
      obtain ⟨d1, h1, h2, h3⟩ := h v ctx true c1 hc
      obtain ⟨d2, g1, g2, g3⟩ := ih (i + 1) c1 b ctx' he
      exact ⟨d1 ++ d2, (pok_comp h1 h2 h3 g1 g2 g3).1, (pok_comp h1 h2 h3 g1 g2 g3).2.1,
        (pok_comp h1 h2 h3 g1 g2 g3).2.2⟩
    · rename_i c1 hc
      obtain ⟨rfl, rfl⟩ : b = false ∧ ctx' = c1.fail (some (.index i)) none 1 := by
        cases he; exact ⟨rfl, rfl⟩
      obtain ⟨d1, h1, h2, _⟩ := h v ctx false c1 hc
      exact pok_fail_after h1 h2 _ _ _

/-- `tupleLoop` satisfies the contract when the positional checker does. -/
theorem tupleLoop_pok {check : TType → Value → Ctx → Option (Bool × Ctx)}
    (h : ∀ t v, POk (check t v)) (items : List Value) (ts : List TType) (i : Nat) :
    POk (tupleLoop check items ts i) := by
  induction ts generalizing i with
  | nil =>
    intro ctx b ctx' he
    simp only [tupleLoop] at he
    obtain ⟨rfl, rfl⟩ : b = true ∧ ctx' = ctx := by cases he; exact ⟨rfl, rfl⟩
    exact ⟨[], by simp, by simp, fun _ => by simp⟩
  | cons t ts ih =>
    intro ctx b ctx' he
    rw [tupleLoop] at he
    split at he
    · exact nomatch he
    · rename_i c1 hc
      obtain ⟨d1, h1, h2, h3⟩ := h _ _ ctx true c1 hc
      obtain ⟨d2, g1, g2, g3⟩ := ih (i + 1) c1 b ctx' he
      exact ⟨d1 ++ d2, (pok_comp h1 h2 h3 g1 g2 g3).1, (pok_comp h1 h2 h3 g1 g2 g3).2.1,
        (pok_comp h1 h2 h3 g1 g2 g3).2.2⟩
    · rename_i c1 hc
      obtain ⟨rfl, rfl⟩ : b = false ∧ ctx' = c1.fail (some (.index i)) none 1 := by
        cases he; exact ⟨rfl, rfl⟩
      obtain ⟨d1, h1, h2, _⟩ := h _ _ ctx false c1 hc
      exact pok_fail_after h1 h2 _ _ _

/-- `paramLoop` satisfies the contract when the parameter checker does. -/
theorem paramLoop_pok {check : TType → Value → Ctx → Option (Bool × Ctx)} {items : Value}
    (h : ∀ t v, POk (check t v)) (ps : List ((String × TType × Bool) × Bool)) (i : Nat) :
    POk (paramLoop check items ps i) := by
  induction ps generalizing i with
  | nil =>
    intro ctx b ctx' he
    simp only [paramLoop] at he
    obtain ⟨rfl, rfl⟩ : b = true ∧ ctx' = ctx := by cases he; exact ⟨rfl, rfl⟩
    exact ⟨[], by simp, by simp, fun _ => by simp⟩
  | cons p ps ih =>
    intro ctx b ctx' he
    obtain ⟨⟨pname, pty, popt⟩, req⟩ := p
    rw [paramLoop] at he
    split at he
    · -- undefined argument position
      split at he
      · obtain ⟨rfl, rfl⟩ : b = false ∧
            ctx' = ctx.fail (some (.name pname)) (some "is missing") 1 := by
          cases he; exact ⟨rfl, rfl⟩
        refine ⟨[⟨some (.name pname), some "is missing", 1⟩], rfl, ?_, ?_⟩
        · show (true : Bool) = _
          cases hcf : ctx.failed <;> rfl
        · intro _
          constructor
          · intro hcon; exact nomatch hcon
          · intro hcon; exact absurd hcon (by simp)
      · exact ih (i + 1) ctx b ctx' he
    · -- present argument
      rename_i vi hvi
      split at he
      · exact nomatch he
      · rename_i c1 hc
        obtain ⟨d1, h1, h2, h3⟩ := h _ _ ctx true c1 hc
        obtain ⟨d2, g1, g2, g3⟩ := ih (i + 1) c1 b ctx' he
        exact ⟨d1 ++ d2, (pok_comp h1 h2 h3 g1 g2 g3).1, (pok_comp h1 h2 h3 g1 g2 g3).2.1,
          (pok_comp h1 h2 h3 g1 g2 g3).2.2⟩
      · rename_i c1 hc
        obtain ⟨rfl, rfl⟩ : b = false ∧ ctx' = c1.fail (some (.name pname)) none 1 := by
          cases he; exact ⟨rfl, rfl⟩
        obtain ⟨d1, h1, h2, _⟩ := h _ _ ctx false c1 hc
        exact pok_fail_after h1 h2 _ _ _

/-- The identity outcome (verdict `true`, context unchanged). -/
theorem pok_id (ctx : Ctx) :
    ∃ d, ctx.frames = ctx.frames ++ d ∧ ctx.failed = (ctx.failed || !d.isEmpty) ∧
      (ctx.failed = false → ((true : Bool) = true ↔ d = [])) :=
  ⟨[], by simp, by simp, fun _ => by simp⟩

/-- A single `ctx.fail` outcome (verdict `false`). -/
theorem pok_single_fail (ctx : Ctx) (k : Option RKey) (m : Option String) (s : Int) :
    ∃ d, (ctx.fail k m s).frames = ctx.frames ++ d ∧
      (ctx.fail k m s).failed = (ctx.failed || !d.isEmpty) ∧
      (ctx.failed = false → ((false : Bool) = true ↔ d = [])) := by
  refine ⟨[⟨k, m, s⟩], rfl, ?_, ?_⟩
  · show (true : Bool) = _
    cases ctx.failed <;> rfl
  · intro _
    constructor
    · intro hcon; exact nomatch hcon
    · intro hcon; exact absurd hcon (by simp)

/-- Every element mapped by a successful `mapM` is related pointwise. -/
theorem mapM_forall2 {f : α → Option β} : ∀ {xs : List α} {ys : List β},
    xs.mapM f = some ys → List.Forall₂ (fun x y => f x = some y) xs ys := by
  intro xs
  induction xs with
  | nil =>
    intro ys h
    simp only [List.mapM_nil, Option.pure_def, Option.some.injEq] at h
    subst h
    exact .nil
  | cons x xs ih =>
    intro ys h
    rw [List.mapM_cons] at h
    cases hx : f x with
    | none => rw [hx] at h; exact nomatch h
    | some y =>
      rw [hx] at h
      cases hys : xs.mapM f with
      | none =>
        rw [hys] at h
        exact nomatch h
      | some ys' =>
        rw [hys] at h
        simp only [Option.pure_def, Option.bind_eq_bind, Option.some_bind,
          Option.some.injEq] at h
        subst h
        exact .cons hx (ih hys)

/-- From a successful `mapM`, each output came from some input. -/
theorem mapM_some_mem {f : α → Option β} : ∀ {xs : List α} {ys : List β},
    xs.mapM f = some ys → ∀ y ∈ ys, ∃ x ∈ xs, f x = some y := by
  intro xs
  induction xs with
  | nil =>
    intro ys h y hy
    simp only [List.mapM_nil, Option.pure_def, Option.some.injEq] at h
    subst h
    exact absurd hy (by simp)
  | cons x xs ih =>
    intro ys h y hy
    rw [List.mapM_cons] at h
    cases hx : f x with
    | none => rw [hx] at h; exact nomatch h
    | some y0 =>
      rw [hx] at h
      cases hys : xs.mapM f with
      | none => rw [hys] at h; exact nomatch h
      | some ys' =>
        rw [hys] at h
        simp only [Option.pure_def, Option.bind_eq_bind, Option.some_bind,
          Option.some.injEq] at h
        subst h
        rcases List.mem_cons.mp hy with rfl | hy'
        · exact ⟨x, by simp, hx⟩
        · obtain ⟨x', hx', hfx'⟩ := ih hys y hy'
          exact ⟨x', by simp [hx'], hfx'⟩

/-- From a successful `mapM`, each input produced some output. -/
theorem mapM_some_forall {f : α → Option β} : ∀ {xs : List α} {ys : List β},
    xs.mapM f = some ys → ∀ x ∈ xs, ∃ y ∈ ys, f x = some y := by
  intro xs
  induction xs with
  | nil =>
    intro ys h x hx
    exact absurd hx (by simp)
  | cons x0 xs ih =>
    intro ys h x hx
    rw [List.mapM_cons] at h
    cases hx0 : f x0 with
    | none => rw [hx0] at h; exact nomatch h
    | some y0 =>
      rw [hx0] at h
      cases hys : xs.mapM f with
      | none => rw [hys] at h; exact nomatch h
      | some ys' =>
        rw [hys] at h
        simp only [Option.pure_def, Option.bind_eq_bind, Option.some_bind,
          Option.some.injEq] at h
        subst h
        rcases List.mem_cons.mp hx with rfl | hx'
        · exact ⟨y0, by simp, hx0⟩
        · obtain ⟨y, hy, hfy⟩ := ih hys x hx'
          exact ⟨y, by simp [hy], hfy⟩

/-- Characterization of a completed fork-merge loop: all steps ran, and the
final context is the incoming one with every child's failure and frames
merged in. -/
theorem forkAll_some {step : α → Option Ctx} : ∀ {xs : List α} {ctx c' : Ctx},
    forkAll step xs ctx = some c' →
    ∃ cs, xs.mapM step = some cs ∧
      c' = ⟨ctx.failed || cs.any (·.failed), ctx.frames ++ (cs.map (·.frames)).flatten⟩ := by
  intro xs
  induction xs with
  | nil =>
    intro ctx c' h
    simp only [forkAll] at h
    cases h
    refine ⟨[], rfl, ?_⟩
    cases ctx
    simp
  | cons x xs ih =>
    intro ctx c' h
    rw [forkAll] at h
    split at h
    · exact nomatch h
    · rename_i child hchild
      obtain ⟨cs, hcs, hc'⟩ := ih h
      refine ⟨child :: cs, ?_, ?_⟩
      · rw [List.mapM_cons, hchild, hcs]
        rfl
      · rw [hc']
        simp [Ctx.mergeFork, Bool.or_assoc, List.append_assoc]

/-- Converse: from pointwise-successful steps, the fork-merge loop completes
with the merged context. -/
theorem forkAll_of_mapM {step : α → Option Ctx} : ∀ {xs : List α} {cs : List Ctx},
    xs.mapM step = some cs → ∀ ctx,
    forkAll step xs ctx =
      some ⟨ctx.failed || cs.any (·.failed), ctx.frames ++ (cs.map (·.frames)).flatten⟩ := by
  intro xs
  induction xs with
  | nil =>
    intro cs h ctx
    simp only [List.mapM_nil, Option.pure_def, Option.some.injEq] at h
    subst h
    simp only [forkAll]
    cases ctx
    simp
  | cons x xs ih =>
    intro cs h ctx
    rw [List.mapM_cons] at h
    cases hx : step x with
    | none => rw [hx] at h; exact nomatch h
    | some child =>
      rw [hx] at h
      cases hys : xs.mapM step with
      | none => rw [hys] at h; exact nomatch h
      | some cs' =>
        rw [hys] at h
        simp only [Option.pure_def, Option.bind_eq_bind, Option.some_bind,
          Option.some.injEq] at h
        subst h
        simp only [forkAll, hx, ih hys, Ctx.mergeFork]
        simp [Bool.or_assoc, List.append_assoc]

/-- The contract of an isolated fork child: it is failed exactly when it
holds frames. -/
def ChildOk (step : α → Option Ctx) : Prop :=
  ∀ x c, step x = some c → c.failed = !c.frames.isEmpty

theorem any_failed_eq_flatten {cs : List Ctx} (h : ∀ c ∈ cs, c.failed = !c.frames.isEmpty) :
    cs.any (·.failed) = !((cs.map (·.frames)).flatten).isEmpty := by
  induction cs with
  | nil => rfl
  | cons c cs ih =>
    have hc := h c (by simp)
    have ih' := ih (fun c' hc' => h c' (by simp [hc']))
    simp only [List.any_cons, List.map_cons, List.flatten_cons, isEmpty_append, hc, ih']
    cases c.frames.isEmpty <;> cases ((cs.map (·.frames)).flatten).isEmpty <;> rfl

/-- Frames/failed bookkeeping of a completed fork-merge loop with well-formed
children. -/
theorem forkAll_fd {step : α → Option Ctx} (hstep : ChildOk step) {xs : List α}
    {ctx c' : Ctx} (h : forkAll step xs ctx = some c') :
    ∃ d, c'.frames = ctx.frames ++ d ∧ c'.failed = (ctx.failed || !d.isEmpty) := by
  obtain ⟨cs, hcs, rfl⟩ := forkAll_some h
  have hpt : ∀ c ∈ cs, c.failed = !c.frames.isEmpty := fun c hc => by
    obtain ⟨x, _, hxc⟩ := mapM_some_mem hcs c hc
    exact hstep x c hxc
  exact ⟨(cs.map (·.frames)).flatten, rfl, by rw [any_failed_eq_flatten hpt]⟩

/-- Chaining two frames/failed bookkeeping facts. -/
theorem fd_comp {c0 c1 c2 : Ctx} {d1 d2 : List Frame}
    (h1 : c1.frames = c0.frames ++ d1) (h2 : c1.failed = (c0.failed || !d1.isEmpty))
    (g1 : c2.frames = c1.frames ++ d2) (g2 : c2.failed = (c1.failed || !d2.isEmpty)) :
    c2.frames = c0.frames ++ (d1 ++ d2) ∧ c2.failed = (c0.failed || !(d1 ++ d2).isEmpty) := by
  constructor
  · rw [g1, h1, List.append_assoc]
  · rw [g2, h2, isEmpty_append]
    cases c0.failed <;> cases d1.isEmpty <;> cases d2.isEmpty <;> rfl

/-- Finishing an iface/intersection run: the verdict is `!failed`. -/
theorem pok_of_notfailed {ctx c : Ctx} {d : List Frame}
    (h1 : c.frames = ctx.frames ++ d) (h2 : c.failed = (ctx.failed || !d.isEmpty)) :
    ∃ d', c.frames = ctx.frames ++ d' ∧ c.failed = (ctx.failed || !d'.isEmpty) ∧
      (ctx.failed = false → ((!c.failed) = true ↔ d' = [])) := by
  refine ⟨d, h1, h2, fun hf => ?_⟩
  rw [h2, hf]
  cases d <;> simp [List.isEmpty]

/-- A step built by projecting the context of a fresh checker run is a
well-formed fork child when the run keeps the bookkeeping contract. -/
theorem childok_map_snd {run : α → Ctx → Option (Bool × Ctx)}
    (h : ∀ x, POk (run x)) : ChildOk (fun x => (run x Ctx.empty).map (·.2)) := by
  intro x c hc0
  have hc : (run x Ctx.empty).map (·.2) = some c := hc0
  cases hr : run x Ctx.empty with
  | none => rw [hr] at hc; exact nomatch hc
  | some r =>
    rw [hr] at hc
    obtain ⟨b1, c1⟩ := r
    cases hc
    obtain ⟨d, h1, h2, _⟩ := h x Ctx.empty b1 c1 hr
    rw [h2, h1]
    simp [Ctx.empty]

/-- The property step is a well-formed fork child. -/
theorem childok_propStep {check : TType → Value → Ctx → Option (Bool × Ctx)}
    (h : ∀ t v, POk (check t v)) (isPart : Bool) (v : Value) :
    ChildOk (propStep check isPart v) := by
  intro p c hc
  obtain ⟨⟨pname, pty, popt⟩, req⟩ := p
  rw [propStep] at hc
  split at hc
  · split at hc
    · cases hc; rfl
    · cases hc; rfl
  · rename_i pv hpv
    split at hc
    · exact nomatch hc
    · rename_i c1 hr
      obtain rfl : c1 = c := by cases hc; rfl
      obtain ⟨d, h1, h2, _⟩ := h pty _ Ctx.empty true c1 hr
      rw [h2, h1]
      simp [Ctx.empty]
    · rename_i c1 hr
      obtain rfl : c = c1.fail (some (.name pname)) none 1 := by cases hc; rfl
      show (true : Bool) = _
      simp [Ctx.fail, isEmpty_append]

/-- The index-signature step is a well-formed fork child. -/
theorem childok_indexStep {check : Value → Ctx → Option (Bool × Ctx)}
    (h : ∀ w, POk (check w)) (v : Value) : ChildOk (indexStep check v) := by
  intro key c hc
  rw [indexStep] at hc
  split at hc
  · exact nomatch hc
  · rename_i c1 hr
    obtain rfl : c1 = c := by cases hc; rfl
    obtain ⟨d, h1, h2, _⟩ := h _ Ctx.empty true c1 hr
    rw [h2, h1]
    simp [Ctx.empty]
  · rename_i c1 hr
    obtain rfl : c = c1.fail (some (.name key)) none 1 := by cases hc; rfl
    show (true : Bool) = _
    simp [Ctx.fail, isEmpty_append]

/-- The extraneous-key step is a well-formed fork child. -/
theorem childok_extraStep (allowed : List String) : ChildOk (extraStep allowed) := by
  intro key c hc
  rw [extraStep] at hc
  split at hc
  · cases hc; rfl
  · cases hc; rfl

/-- All alternatives of a failed union loop failed. -/
theorem unionLoop_failed {check : TType → Option (Bool × Ctx)} :
    ∀ {ts : List TType} {acc : List Ctx} {cs : List Ctx},
    unionLoop check ts acc = some (some cs) → ∀ t ∈ ts, ∃ c, check t = some (false, c) := by
  intro ts
  induction ts with
  | nil => intro acc cs _ t ht; exact absurd ht (by simp)
  | cons t0 ts ih =>
    intro acc cs h t ht
    rw [unionLoop] at h
    split at h
    · exact nomatch h
    · exact nomatch h
    · rename_i c0 hc0
      rcases List.mem_cons.mp ht with rfl | ht'
      · exact ⟨c0, hc0⟩
      · exact ih h t ht'

/-- A successful union loop has a successful alternative. -/
theorem unionLoop_success {check : TType → Option (Bool × Ctx)} :
    ∀ {ts : List TType} {acc : List Ctx},
    unionLoop check ts acc = some none → ∃ t ∈ ts, ∃ c, check t = some (true, c) := by
  intro ts
  induction ts with
  | nil => intro acc h; rw [unionLoop] at h; exact nomatch h
  | cons t0 ts ih =>
    intro acc h
    rw [unionLoop] at h
    split at h
    · exact nomatch h
    · rename_i c0 hc0
      exact ⟨t0, by simp, c0, hc0⟩
    · obtain ⟨t, ht, c, hc⟩ := ih h
      exact ⟨t, by simp [ht], c, hc⟩

/-- The master bookkeeping theorem: every checker run appends frames, its
failed flag is "incoming failed or new frames", and from an unfailed context
its verdict is `true` exactly when no frame was recorded. -/
theorem checkValue_pok (f : Nat) : ∀ (suite : Suite) (strict isPart : Bool)
    (allowed : Option (List String)) (t : TType) (v : Value),
    POk (checkValue f suite strict isPart allowed t v) := by
  induction f with
  | zero => intro _ _ _ _ _ _ ctx b ctx' he; exact nomatch he
  | succ f ih =>
    intro suite strict isPart allowed t v ctx b ctx' he
    cases t with
    | basic k =>
      simp only [checkValue] at he
      split at he
      · cases he; exact pok_id ctx
      · cases he; exact pok_single_fail ctx _ _ _
    | tname n =>
      simp only [checkValue] at he
      split at he
      · exact nomatch he
      · rename_i tt htt
        split at he
        · exact nomatch he
        · rename_i b1 c1 hc1
          have hih := ih suite strict isPart allowed tt v ctx b1 c1 hc1
          clear hc1 htt
          split at he
          · cases he; exact hih
          · cases he; exact hih
          · split at he
            · rename_i hb1
              subst hb1
              cases he
              exact hih
            · rename_i hb1
              have hb1' : b1 = false := by
                cases b1
                · rfl
                · exact absurd rfl hb1
              subst hb1'
              cases he
              obtain ⟨d1, h1, h2, _⟩ := hih
              exact pok_fail_after h1 h2 _ _ _
    | literal lv =>
      simp only [checkValue] at he
      split at he
      · cases he; exact pok_id ctx
      · cases he; exact pok_single_fail ctx _ _ _
    | tarray it =>
      simp only [checkValue] at he
      split at he
      · rename_i items
        exact arrayLoop_pok (fun w => ih suite strict false none it w) items 0 ctx b ctx' he
      · cases he; exact pok_single_fail ctx _ _ _
    | trest spec start =>
      simp only [checkValue] at he
      split at he
      · rename_i it hres
        split at he
        · cases he; exact pok_id ctx
        · rename_i s
          split at he
          · rename_i items
            exact arrayLoop_pok (fun w => ih suite strict false none it w)
              (items.drop s) s ctx b ctx' he
          · cases he; exact pok_id ctx
      · exact nomatch he
    | ttuple ttypes restType =>
      simp only [checkValue] at he
      have hbase : POk (tupleBase
          (fun t' w c' => checkValue f suite strict false none t' w c') ttypes v) := by
        intro c0 b0 c0' h0
        rw [tupleBase.eq_def] at h0
        split at h0
        · rename_i items
          exact tupleLoop_pok (fun t' w => ih suite strict false none t' w)
            items ttypes 0 c0 b0 c0' h0
        · cases h0; exact pok_single_fail c0 _ _ _
      split at he
      · rename_i spec start
        split at he
        · exact nomatch he
        · rename_i c1 hc1
          obtain ⟨rfl, rfl⟩ : b = false ∧ c1 = ctx' := by cases he; exact ⟨rfl, rfl⟩
          exact hbase ctx false c1 hc1
        · rename_i c1 hc1
          obtain ⟨d1, h1, h2, h3⟩ := hbase ctx true c1 hc1
          obtain ⟨d2, g1, g2, g3⟩ :=
            ih suite strict false none (.trest spec (some start)) v c1 b ctx' he
          obtain ⟨q1, q2, q3⟩ := pok_comp h1 h2 h3 g1 g2 g3
          exact ⟨d1 ++ d2, q1, q2, q3⟩
      · split at he
        · split at he
          · exact nomatch he
          · rename_i c1 hc1
            obtain ⟨rfl, rfl⟩ : b = false ∧ c1 = ctx' := by cases he; exact ⟨rfl, rfl⟩
            exact hbase ctx false c1 hc1
          · rename_i c1 hc1
            split at he
            · rename_i items
              split at he
              · obtain ⟨rfl, rfl⟩ : b = true ∧ c1 = ctx' := by cases he; exact ⟨rfl, rfl⟩
                exact hbase ctx true c1 hc1
              · rename_i hlen
                obtain ⟨rfl, rfl⟩ :
                    b = false ∧ ctx' = c1.fail (some (.index ttypes.length)) (some "is extraneous") 2 := by
                  cases he; exact ⟨rfl, rfl⟩
                obtain ⟨d1, h1, h2, _⟩ := hbase ctx true c1 hc1
                exact pok_fail_after h1 h2 _ _ _
            · obtain ⟨rfl, rfl⟩ : b = true ∧ c1 = ctx' := by cases he; exact ⟨rfl, rfl⟩
              exact hbase ctx true c1 hc1
        · exact hbase ctx b ctx' he
    | tunion ts =>
      simp only [checkValue] at he
      split at he
      · exact nomatch he
      · cases he; exact pok_id ctx
      · rename_i children hch
        cases he
        cases hpb : pickBest children with
        | none =>
          simp only [hpb]
          exact pok_single_fail ctx _ _ _
        | some bc =>
          simp only [hpb]
          refine ⟨bc.frames ++ [⟨none, some (unionFailMsg ts), 0⟩], ?_, ?_, ?_⟩
          · show (ctx.frames ++ bc.frames) ++ _ = _
            rw [List.append_assoc]
          · show (true : Bool) = _
            rw [isEmpty_append]
            cases ctx.failed <;> cases bc.frames.isEmpty <;> rfl
          · intro _
            constructor
            · intro hcon; exact nomatch hcon
            · intro hcon; exact absurd hcon (by simp)
    | tinter ts =>
      simp only [checkValue] at he
      split at he
      · exact nomatch he
      · rename_i c1 hc1
        cases he
        obtain ⟨d, h1, h2⟩ := forkAll_fd
          (childok_map_snd (fun t' => ih suite strict isPart _ t' v)) hc1
        exact pok_of_notfailed h1 h2
    | tpart t' =>
      simp only [checkValue] at he
      split at he
      · cases he; exact pok_id ctx
      · exact ih suite strict true none t' v ctx b ctx' he
    | tenum members =>
      simp only [checkValue] at he
      split at he
      · cases he; exact pok_id ctx
      · cases he; exact pok_single_fail ctx _ _ _
    | tenumlit en p =>
      simp only [checkValue] at he
      split at he
      · split at he
        · split at he
          · cases he; exact pok_id ctx
          · cases he; exact pok_single_fail ctx _ _ _
        · exact nomatch he
      · exact nomatch he
    | tiface bases props indexType =>
      simp only [checkValue] at he
      split at he
      · exact nomatch he
      · rename_i baseTs hbTs
        split at he
        · exact nomatch he
        · rename_i reqs hreqs
          split at he
          · -- value is object-like
            split at he
            · exact nomatch he
            · rename_i c1 hc1
              split at he
              · exact nomatch he
              · rename_i c2 hc2
                obtain ⟨d1, h1, h2⟩ := forkAll_fd
                  (childok_map_snd (fun bt => ih suite strict isPart _ bt v)) hc1
                obtain ⟨d2, g1, g2⟩ := forkAll_fd
                  (childok_propStep (fun t' w => ih suite strict isPart none t' w) isPart v)
                  hc2
                obtain ⟨q1, q2⟩ := fd_comp h1 h2 g1 g2
                split at he
                · rename_i ixt
                  split at he
                  · exact nomatch he
                  · rename_i c3 hc3
                    cases he
                    obtain ⟨d3, r1, r2⟩ := forkAll_fd
                      (childok_indexStep (fun w => ih suite strict isPart none ixt w) v) hc3
                    obtain ⟨s1, s2⟩ := fd_comp q1 q2 r1 r2
                    exact pok_of_notfailed s1 s2
                · split at he
                  · split at he
                    · exact nomatch he
                    · rename_i c3 hc3
                      cases he
                      obtain ⟨d3, r1, r2⟩ := forkAll_fd (childok_extraStep _) hc3
                      obtain ⟨s1, s2⟩ := fd_comp q1 q2 r1 r2
                      exact pok_of_notfailed s1 s2
                  · cases he
                    exact pok_of_notfailed q1 q2
          · cases he
            exact pok_single_fail ctx _ _ _
    | toption t' =>
      simp only [checkValue] at he
      split at he
      · cases he; exact pok_id ctx
      · exact ih suite strict false none t' v ctx b ctx' he
    | tfunc params result =>
      simp only [checkValue] at he
      split at he
      · cases he; exact pok_id ctx
      · cases he; exact pok_single_fail ctx _ _ _
    | tparamlist params =>
      simp only [checkValue] at he
      split at he
      · exact nomatch he
      · rename_i reqs hreqs
        have hbase : POk (paramBase
            (fun t' w c' => checkValue f suite strict false none t' w c')
            (params.zip reqs) v) := by
          intro c0 b0 c0' h0
          rw [paramBase.eq_def] at h0
          split at h0
          · exact paramLoop_pok (fun t' w => ih suite strict false none t' w)
              (params.zip reqs) 0 c0 b0 c0' h0
          · cases h0; exact pok_single_fail c0 _ _ _
        split at he
        · split at he
          · exact nomatch he
          · rename_i c1 hc1
            obtain ⟨rfl, rfl⟩ : b = false ∧ c1 = ctx' := by cases he; exact ⟨rfl, rfl⟩
            exact hbase ctx false c1 hc1
          · rename_i c1 hc1
            split at he
            · rename_i items
              split at he
              · obtain ⟨rfl, rfl⟩ : b = true ∧ c1 = ctx' := by cases he; exact ⟨rfl, rfl⟩
                exact hbase ctx true c1 hc1
              · rename_i hlen
                obtain ⟨rfl, rfl⟩ :
                    b = false ∧ ctx' = c1.fail (some (.index params.length)) (some "is extraneous") 2 := by
                  cases he; exact ⟨rfl, rfl⟩
                obtain ⟨d1, h1, h2, _⟩ := hbase ctx true c1 hc1
                exact pok_fail_after h1 h2 _ _ _
            · obtain ⟨rfl, rfl⟩ : b = true ∧ c1 = ctx' := by cases he; exact ⟨rfl, rfl⟩
              exact hbase ctx true c1 hc1
        · exact hbase ctx b ctx' he

/-! ## Strict implies plain

The strict checker only adds rejections (extraneous object keys, excess
tuple elements, excess arguments); it never accepts a value the plain
checker rejects.  The statements are conditional on both runs finishing
(`some`): for pathological suites a checker can diverge, and then one order
of evaluation may diverge where another returns. -/

/-- The strict-implies-plain contract of a pair of checkers. -/
def StpOk (check₁ check₂ : TType → Value → Ctx → Option (Bool × Ctx)) : Prop :=
  ∀ t v ctx, ctx.failed = false →
    ∀ cs r cp, check₁ t v ctx = some (true, cs) → check₂ t v ctx = some (r, cp) → r = true

/-- A verdict read off an isolated child: from a fresh context, an unfailed
result context means the verdict was `true`. -/
theorem bool_of_unfailed_child {run : Ctx → Option (Bool × Ctx)} (h : POk run)
    {b : Bool} {c : Ctx} (he : run Ctx.empty = some (b, c)) (hc : c.failed = false) :
    b = true := by
  obtain ⟨d, h1, h2, h3⟩ := h Ctx.empty b c he
  have hd : d = [] := by
    rw [h2] at hc
    cases d with
    | nil => rfl
    | cons a as => exact nomatch hc
  exact (h3 rfl).mpr hd

/-- Inverting the context projection of a fork step. -/
theorem map_snd_inv {o : Option (Bool × Ctx)} {c : Ctx}
    (h : o.map (·.2) = some c) : ∃ b, o = some (b, c) := by
  cases o with
  | none => exact nomatch h
  | some r =>
    obtain ⟨b, c'⟩ := r
    obtain rfl : c' = c := by cases h; rfl
    exact ⟨b, rfl⟩

/-- A false `any` means every element fails the predicate. -/
theorem any_false_mem {l : List α} {p : α → Bool} (h : l.any p = false) :
    ∀ x ∈ l, p x = false := by
  induction l with
  | nil => intro x hx; exact absurd hx (by simp)
  | cons a as ih =>
    intro x hx
    rw [List.any_cons] at h
    have ha : p a = false := by
      cases hpa : p a
      · rfl
      · rw [hpa] at h; exact nomatch h
    rcases List.mem_cons.mp hx with rfl | hx'
    · exact ha
    · have has : as.any p = false := by
        rw [ha] at h
        simpa using h
      exact ih has x hx'

/-- Aligning two successful `mapM`s over the same list, pointwise. -/
theorem forall2_zip_of_mapM {f g : α → Option β} : ∀ {xs : List α} {ys zs : List β},
    xs.mapM f = some ys → xs.mapM g = some zs →
    List.Forall₂ (fun (a b : α × β) => a.1 = b.1 ∧ f a.1 = some a.2 ∧ g b.1 = some b.2)
      (xs.zip ys) (xs.zip zs) := by
  intro xs
  induction xs with
  | nil =>
    intro ys zs hf hg
    simp only [List.mapM_nil, Option.pure_def, Option.some.injEq] at hf hg
    subst hf
    subst hg
    exact .nil
  | cons x xs ih =>
    intro ys zs hf hg
    rw [List.mapM_cons] at hf hg
    cases hfx : f x with
    | none => rw [hfx] at hf; exact nomatch hf
    | some y =>
      rw [hfx] at hf
      cases hfs : xs.mapM f with
      | none => rw [hfs] at hf; exact nomatch hf
      | some ys' =>
        rw [hfs] at hf
        simp only [Option.pure_def, Option.bind_eq_bind, Option.some_bind,
          Option.some.injEq] at hf
        subst hf
        cases hgx : g x with
        | none => rw [hgx] at hg; exact nomatch hg
        | some z =>
          rw [hgx] at hg
          cases hgs : xs.mapM g with
          | none => rw [hgs] at hg; exact nomatch hg
          | some zs' =>
            rw [hgs] at hg
            simp only [Option.pure_def, Option.bind_eq_bind, Option.some_bind,
              Option.some.injEq] at hg
            subst hg
            exact .cons ⟨rfl, hfx, hgx⟩ (ih hfs hgs)

/-- A right member of a `Forall₂` has a related left partner. -/
theorem forall2_mem_right {R : α → β → Prop} : ∀ {l₁ : List α} {l₂ : List β},
    List.Forall₂ R l₁ l₂ → ∀ b ∈ l₂, ∃ a ∈ l₁, R a b := by
  intro l₁ l₂ h
  induction h with
  | nil => intro b hb; exact absurd hb (by simp)
  | cons hab _ ih =>
    intro b hb
    rcases List.mem_cons.mp hb with rfl | hb'
    · exact ⟨_, by simp, hab⟩
    · obtain ⟨a, ha, hr⟩ := ih b hb'
      exact ⟨a, by simp [ha], hr⟩

/-- Strict-implies-plain for the array item loop. -/
theorem arrayLoop_stp {check₁ check₂ : Value → Ctx → Option (Bool × Ctx)}
    (hpok₁ : ∀ w, POk (check₁ w)) (hpok₂ : ∀ w, POk (check₂ w))
    (himp : ∀ w c, c.failed = false → ∀ cs r cp, check₁ w c = some (true, cs) →
      check₂ w c = some (r, cp) → r = true) :
    ∀ (vs : List Value) (i : Nat) (ctx : Ctx), ctx.failed = false →
    ∀ cs r cp, arrayLoop check₁ vs i ctx = some (true, cs) →
      arrayLoop check₂ vs i ctx = some (r, cp) → r = true := by
  intro vs
  induction vs with
  | nil =>
    intro i ctx hctx cs r cp h1 h2
    rw [arrayLoop] at h2
    cases h2
    rfl
  | cons w vs ih =>
    intro i ctx hctx cs r cp h1 h2
    rw [arrayLoop] at h1 h2
    split at h1
    · exact nomatch h1
    · rename_i c1 hc1
      split at h2
      · exact nomatch h2
      · rename_i c2 hc2
        have e1 : c1 = ctx := POk.success_eq (hpok₁ w) hctx hc1
        have e2 : c2 = ctx := POk.success_eq (hpok₂ w) hctx hc2
        rw [e1] at h1
        rw [e2] at h2
        exact ih (i + 1) ctx hctx cs r cp h1 h2
      · rename_i c2 hc2
        exact absurd (himp w ctx hctx c1 false c2 hc1 hc2) (by simp)
    · exact absurd h1 (by simp)

/-- Strict-implies-plain for the tuple position loop. -/
theorem tupleLoop_stp {check₁ check₂ : TType → Value → Ctx → Option (Bool × Ctx)}
    (hpok₁ : ∀ t w, POk (check₁ t w)) (hpok₂ : ∀ t w, POk (check₂ t w))
    (himp : StpOk check₁ check₂) (items : List Value) :
    ∀ (ts : List TType) (i : Nat) (ctx : Ctx), ctx.failed = false →
    ∀ cs r cp, tupleLoop check₁ items ts i ctx = some (true, cs) →
      tupleLoop check₂ items ts i ctx = some (r, cp) → r = true := by
  intro ts
  induction ts with
  | nil =>
    intro i ctx hctx cs r cp h1 h2
    rw [tupleLoop] at h2
    cases h2
    rfl
  | cons t ts ih =>
    intro i ctx hctx cs r cp h1 h2
    rw [tupleLoop] at h1 h2
    split at h1
    · exact nomatch h1
    · rename_i c1 hc1
      split at h2
      · exact nomatch h2
      · rename_i c2 hc2
        have e1 : c1 = ctx := POk.success_eq (hpok₁ t _) hctx hc1
        have e2 : c2 = ctx := POk.success_eq (hpok₂ t _) hctx hc2
        rw [e1] at h1
        rw [e2] at h2
        exact ih (i + 1) ctx hctx cs r cp h1 h2
      · rename_i c2 hc2
        exact absurd (himp t _ ctx hctx c1 false c2 hc1 hc2) (by simp)
    · exact absurd h1 (by simp)

/-- Strict-implies-plain for the parameter loop: the plain run's required
flags imply the strict run's (strict probes reject at least as much). -/
theorem paramLoop_stp {check₁ check₂ : TType → Value → Ctx → Option (Bool × Ctx)}
    (hpok₁ : ∀ t w, POk (check₁ t w)) (hpok₂ : ∀ t w, POk (check₂ t w))
    (himp : StpOk check₁ check₂) (items : Value) :
    ∀ {psr₁ psr₂ : List ((String × TType × Bool) × Bool)},
    List.Forall₂ (fun a b => a.1 = b.1 ∧ (b.2 = true → a.2 = true)) psr₁ psr₂ →
    ∀ (i : Nat) (ctx : Ctx), ctx.failed = false →
    ∀ cs r cp, paramLoop check₁ items psr₁ i ctx = some (true, cs) →
      paramLoop check₂ items psr₂ i ctx = some (r, cp) → r = true := by
  intro psr₁ psr₂ hrel
  induction hrel with
  | nil =>
    intro i ctx hctx cs r cp h1 h2
    rw [paramLoop] at h2
    cases h2
    rfl
  | @cons a b l₁ l₂ hab _ ih =>
    intro i ctx hctx cs r cp h1 h2
    obtain ⟨⟨pname₁, pty₁, popt₁⟩, req₁⟩ := a
    obtain ⟨⟨pname₂, pty₂, popt₂⟩, req₂⟩ := b
    obtain ⟨heq1, hreq⟩ := hab
    obtain ⟨rfl, rfl, rfl⟩ : pname₁ = pname₂ ∧ pty₁ = pty₂ ∧ popt₁ = popt₂ := by
      simpa using heq1
    rw [paramLoop] at h1 h2
    split at h1
    · -- undefined argument: the strict run skipped it (required would have failed)
      rename_i hundef
      split at h1
      · exact absurd h1 (by simp)
      · rename_i hr1
        have hreq2 : ¬(req₂ = true) := fun hq2 => hr1 (hreq hq2)
        simp only [hundef] at h2
        rw [if_neg hreq2] at h2
        exact ih (i + 1) ctx hctx cs r cp h1 h2
    · -- present argument
      rename_i vi hvi
      split at h1
      · exact nomatch h1
      · rename_i c1 hc1
        have e1 : c1 = ctx := POk.success_eq (hpok₁ _ _) hctx hc1
        rw [e1] at h1
        split at h2
        · rename_i hundef2
          exact absurd hundef2 hvi
        · rename_i vi2 hvi2
          split at h2
          · exact nomatch h2
          · rename_i c2 hc2
            have e2 : c2 = ctx := POk.success_eq (hpok₂ _ _) hctx hc2
            rw [e2] at h2
            exact ih (i + 1) ctx hctx cs r cp h1 h2
          · rename_i c2 hc2
            exact absurd (himp pty₁ _ ctx hctx c1 false c2 hc1 hc2) (by simp)
      · exact absurd h1 (by simp)

theorem or_false_split {a b : Bool} (h : (a || b) = false) : a = false ∧ b = false := by
  cases a <;> cases b <;> simp_all

theorem any_false_of_mem {l : List α} {p : α → Bool} (h : ∀ x ∈ l, p x = false) :
    l.any p = false := by
  induction l with
  | nil => rfl
  | cons a as ih =>
    rw [List.any_cons, h a (by simp), ih (fun x hx => h x (by simp [hx]))]
    rfl

/-- Strict-implies-plain for one fork child built from a fresh checker run:
if the strict child came back clean, so does the plain child. -/
theorem sndStep_stp {run₁ run₂ : Ctx → Option (Bool × Ctx)}
    (hpok₁ : POk run₁) (hpok₂ : POk run₂)
    (himp : ∀ cs r cp, run₁ Ctx.empty = some (true, cs) → run₂ Ctx.empty = some (r, cp) →
      r = true)
    {c₁ c₂ : Ctx} (h1 : (run₁ Ctx.empty).map (·.2) = some c₁) (hc1 : c₁.failed = false)
    (h2 : (run₂ Ctx.empty).map (·.2) = some c₂) : c₂.failed = false := by
  obtain ⟨b₁, h1'⟩ := map_snd_inv h1
  obtain ⟨b₂, h2'⟩ := map_snd_inv h2
  have hb₁ : b₁ = true := bool_of_unfailed_child hpok₁ h1' hc1
  subst hb₁
  have hb₂ : b₂ = true := himp _ _ _ h1' h2'
  subst hb₂
  rw [POk.success_eq hpok₂ rfl h2']
  rfl

/-- Strict-implies-plain for one property step of the iface loop: the plain
run's required flag implies the strict run's. -/
theorem propStep_stp {check₁ check₂ : TType → Value → Ctx → Option (Bool × Ctx)}
    (hpok₂ : ∀ t w, POk (check₂ t w)) (himp : StpOk check₁ check₂)
    (isPart : Bool) (v : Value)
    {pname : String} {pty : TType} {popt : Bool} {req₁ req₂ : Bool}
    (hreq : req₂ = true → req₁ = true) {c₁ c₂ : Ctx}
    (h1 : propStep check₁ isPart v ((pname, pty, popt), req₁) = some c₁)
    (hc1 : c₁.failed = false)
    (h2 : propStep check₂ isPart v ((pname, pty, popt), req₂) = some c₂) :
    c₂.failed = false := by
  rw [propStep] at h1 h2
  split at h1
  · rename_i hundef
    simp only [hundef] at h2
    split at h1
    · obtain rfl : Ctx.empty.fail (some (.name pname)) (some "is missing") 1 = c₁ := by
        cases h1; rfl
      exact nomatch hc1
    · rename_i hif
      have hif2 : ¬((req₂ && !isPart) = true) := by
        intro hq
        apply hif
        cases hb : req₂ with
        | false => rw [hb] at hq; exact nomatch hq
        | true => rw [hreq hb]; rw [hb] at hq; exact hq
      rw [if_neg hif2] at h2
      obtain rfl : Ctx.empty = c₂ := by cases h2; rfl
      rfl
  · rename_i pv hpv
    split at h2
    · rename_i hundef2
      exact absurd hundef2 hpv
    · rename_i pv2 hpv2
      split at h1
      · exact nomatch h1
      · rename_i c1' hr1
        obtain rfl : c₁ = c1' := by cases h1; rfl
        split at h2
        · exact nomatch h2
        · rename_i c2' hr2
          obtain rfl : c₂ = c2' := by cases h2; rfl
          rw [POk.success_eq (hpok₂ pty _) rfl hr2]
          rfl
        · rename_i c2' hr2
          exact absurd (himp pty _ Ctx.empty rfl c₁ false c2' hr1 hr2) (by simp)
      · rename_i c1' hr1
        obtain rfl : c1'.fail (some (.name pname)) none 1 = c₁ := by cases h1; rfl
        exact nomatch hc1

/-- Strict-implies-plain for one index-signature step of the iface loop. -/
theorem indexStep_stp {check₁ check₂ : Value → Ctx → Option (Bool × Ctx)}
    (hpok₂ : ∀ w, POk (check₂ w))
    (himp : ∀ w c, c.failed = false → ∀ cs r cp, check₁ w c = some (true, cs) →
      check₂ w c = some (r, cp) → r = true)
    (v : Value) {key : String} {c₁ c₂ : Ctx}
    (h1 : indexStep check₁ v key = some c₁) (hc1 : c₁.failed = false)
    (h2 : indexStep check₂ v key = some c₂) : c₂.failed = false := by
  rw [indexStep] at h1 h2
  split at h1
  · exact nomatch h1
  · rename_i c1' hr1
    obtain rfl : c₁ = c1' := by cases h1; rfl
    split at h2
    · exact nomatch h2
    · rename_i c2' hr2
      obtain rfl : c₂ = c2' := by cases h2; rfl
      rw [POk.success_eq (hpok₂ _) rfl hr2]
      rfl
    · rename_i c2' hr2
      exact absurd (himp _ Ctx.empty rfl c₁ false c2' hr1 hr2) (by simp)
  · rename_i c1' hr1
    obtain rfl : c1'.fail (some (.name key)) none 1 = c₁ := by cases h1; rfl
    exact nomatch hc1

/-- Inverting a required-flag probe. -/
theorem probe_inv {o : Option (Bool × Ctx)} {opt req : Bool}
    (h : o.map (fun r => !opt && !r.1) = some req) :
    ∃ b c, o = some (b, c) ∧ req = (!opt && !b) := by
  cases o with
  | none => exact nomatch h
  | some r =>
    obtain ⟨b, c⟩ := r
    obtain rfl : (!opt && !b) = req := by cases h; rfl
    exact ⟨b, c, rfl, rfl⟩

/-- `tupleBase` satisfies the bookkeeping contract. -/
theorem tupleBase_pok {check : TType → Value → Ctx → Option (Bool × Ctx)}
    (h : ∀ t w, POk (check t w)) (ttypes : List TType) (v : Value) :
    POk (tupleBase check ttypes v) := by
  intro c0 b0 c0' h0
  rw [tupleBase.eq_def] at h0
  split at h0
  · rename_i items
    exact tupleLoop_pok h items ttypes 0 c0 b0 c0' h0
  · cases h0
    exact pok_single_fail c0 _ _ _

/-- Strict-implies-plain for `tupleBase`. -/
theorem tupleBase_stp {check₁ check₂ : TType → Value → Ctx → Option (Bool × Ctx)}
    (hpok₁ : ∀ t w, POk (check₁ t w)) (hpok₂ : ∀ t w, POk (check₂ t w))
    (himp : StpOk check₁ check₂) (ttypes : List TType) (v : Value)
    (ctx : Ctx) (hctx : ctx.failed = false) {cs cp : Ctx} {rb : Bool}
    (h1 : tupleBase check₁ ttypes v ctx = some (true, cs))
    (h2 : tupleBase check₂ ttypes v ctx = some (rb, cp)) : rb = true := by
  rw [tupleBase.eq_def] at h1 h2
  split at h1
  · rename_i items
    exact tupleLoop_stp hpok₁ hpok₂ himp items ttypes 0 ctx hctx cs rb cp h1 h2
  · exact absurd h1 (by simp)

/-- Strict-implies-plain for `paramBase`. -/
theorem paramBase_stp {check₁ check₂ : TType → Value → Ctx → Option (Bool × Ctx)}
    (hpok₁ : ∀ t w, POk (check₁ t w)) (hpok₂ : ∀ t w, POk (check₂ t w))
    (himp : StpOk check₁ check₂)
    {psr₁ psr₂ : List ((String × TType × Bool) × Bool)}
    (hrel : List.Forall₂ (fun a b => a.1 = b.1 ∧ (b.2 = true → a.2 = true)) psr₁ psr₂)
    (v : Value) (ctx : Ctx) (hctx : ctx.failed = false) {cs cp : Ctx} {rb : Bool}
    (h1 : paramBase check₁ psr₁ v ctx = some (true, cs))
    (h2 : paramBase check₂ psr₂ v ctx = some (rb, cp)) : rb = true := by
  rw [paramBase.eq_def] at h1 h2
  split at h1
  · rename_i items
    exact paramLoop_stp hpok₁ hpok₂ himp (.arr items) hrel 0 ctx hctx cs rb cp h1 h2
  · exact absurd h1 (by simp)

/-- The plain probe implies the strict probe: a property/parameter required
by the plain checker is required by the strict checker. -/
theorem probe_imp (f : Nat) (suite : Suite) (isP : Bool)
    (hIH : ∀ (t : TType) (v : Value) (ctx : Ctx), ctx.failed = false → ∀ cs r cp,
      checkValue f suite true isP none t v ctx = some (true, cs) →
      checkValue f suite false isP none t v ctx = some (r, cp) → r = true)
    {p : String × TType × Bool} {q₁ q₂ : Bool}
    (hp1 : (checkValue f suite true isP none p.2.1 .undef Ctx.empty).map
      (fun r => !p.2.2 && !r.1) = some q₁)
    (hp2 : (checkValue f suite false isP none p.2.1 .undef Ctx.empty).map
      (fun r => !p.2.2 && !r.1) = some q₂) :
    q₂ = true → q₁ = true := by
  intro hq2t
  obtain ⟨b₁, cb₁, hrun₁, hq₁⟩ := probe_inv hp1
  obtain ⟨b₂, cb₂, hrun₂, hq₂⟩ := probe_inv hp2
  rw [hq₂] at hq2t
  have ho : (!p.2.2) = true := by
    cases hoo : (!p.2.2)
    · rw [hoo] at hq2t; exact nomatch hq2t
    · rfl
  have hb2f : b₂ = false := by
    cases hbb : b₂
    · rfl
    · rw [ho, hbb] at hq2t; exact nomatch hq2t
  have hb1f : b₁ = false := by
    cases hb1c : b₁
    · rfl
    · rw [hb1c] at hrun₁
      have hcon := hIH p.2.1 .undef Ctx.empty rfl cb₁ b₂ cb₂ hrun₁ hrun₂
      rw [hb2f] at hcon
      exact nomatch hcon
  rw [hq₁, hb1f, ho]
  rfl

/-- Strict-implies-plain through the base and property stages of the iface
checker: if the strict run came through its base and property loops clean,
so does the plain run. -/
theorem iface_stages_stp (f : Nat) (suite : Suite) (isPart : Bool)
    (hIH : ∀ (al al' : Option (List String)) (t : TType) (v : Value) (ctx : Ctx),
      ctx.failed = false → ∀ cs r cp,
      checkValue f suite true isPart al t v ctx = some (true, cs) →
      checkValue f suite false isPart al' t v ctx = some (r, cp) → r = true)
    (v : Value) (ctx : Ctx) (hctx : ctx.failed = false)
    (baseTs : List TType) (props : List (String × TType × Bool))
    {reqs₁ reqs₂ : List Bool} (sharedS sharedP : List String)
    (hreqs₁ : props.mapM (fun p =>
      (checkValue f suite true isPart none p.2.1 .undef Ctx.empty).map
        (fun r => !p.2.2 && !r.1)) = some reqs₁)
    (hreqs₂ : props.mapM (fun p =>
      (checkValue f suite false isPart none p.2.1 .undef Ctx.empty).map
        (fun r => !p.2.2 && !r.1)) = some reqs₂)
    {c1s c2s c1p c2p : Ctx}
    (hc1s : forkAll (fun bt =>
      (checkValue f suite true isPart (some sharedS) bt v Ctx.empty).map (·.2))
      baseTs ctx = some c1s)
    (hc2s : forkAll (propStep (fun t' w c => checkValue f suite true isPart none t' w c)
      isPart v) (props.zip reqs₁) c1s = some c2s)
    (hc1p : forkAll (fun bt =>
      (checkValue f suite false isPart (some sharedP) bt v Ctx.empty).map (·.2))
      baseTs ctx = some c1p)
    (hc2p : forkAll (propStep (fun t' w c => checkValue f suite false isPart none t' w c)
      isPart v) (props.zip reqs₂) c1p = some c2p)
    (hf2 : c2s.failed = false) :
    c2p.failed = false := by
  obtain ⟨csB, hmapB, heqB⟩ := forkAll_some hc1s
  obtain ⟨csP, hmapP, heqP⟩ := forkAll_some hc2s
  have h2' : (c1s.failed || csP.any (·.failed)) = false := by rw [heqP] at hf2; exact hf2
  obtain ⟨hf1, hanyP⟩ := or_false_split h2'
  have h1' : (ctx.failed || csB.any (·.failed)) = false := by rw [heqB] at hf1; exact hf1
  obtain ⟨_, hanyB⟩ := or_false_split h1'
  obtain ⟨cpB, hmapBp, heqBp⟩ := forkAll_some hc1p
  obtain ⟨cpP, hmapPp, heqPp⟩ := forkAll_some hc2p
  have hBp : ∀ c ∈ cpB, c.failed = false := by
    intro c hc
    obtain ⟨bt, hbt, hstep⟩ := mapM_some_mem hmapBp c hc
    obtain ⟨cS, hcSmem, hstepS⟩ := mapM_some_forall hmapB bt hbt
    exact sndStep_stp (checkValue_pok f suite true isPart (some sharedS) bt v)
      (checkValue_pok f suite false isPart (some sharedP) bt v)
      (fun cs' r' cp' e1 e2 =>
        hIH (some sharedS) (some sharedP) bt v Ctx.empty rfl cs' r' cp' e1 e2)
      hstepS (any_false_mem hanyB cS hcSmem) hstep
  have hPp : ∀ c ∈ cpP, c.failed = false := by
    intro c hc
    obtain ⟨pr₂, hpr₂, hstep⟩ := mapM_some_mem hmapPp c hc
    obtain ⟨pr₁, hpr₁, hrel⟩ :=
      forall2_mem_right (forall2_zip_of_mapM hreqs₁ hreqs₂) pr₂ hpr₂
    obtain ⟨cS, hcSmem, hstepS⟩ := mapM_some_forall hmapP pr₁ hpr₁
    obtain ⟨hfst, hpb1, hpb2⟩ := hrel
    obtain ⟨⟨n₁, ty₁, o₁⟩, q₁⟩ := pr₁
    obtain ⟨⟨n₂, ty₂, o₂⟩, q₂⟩ := pr₂
    obtain ⟨rfl, rfl, rfl⟩ : n₁ = n₂ ∧ ty₁ = ty₂ ∧ o₁ = o₂ := by simpa using hfst
    have hreqimp : q₂ = true → q₁ = true :=
      probe_imp f suite isPart
        (fun t' w c' hc' cs' r' cp' e1 e2 =>
          hIH none none t' w c' hc' cs' r' cp' e1 e2)
        hpb1 hpb2
    exact propStep_stp
      (fun t' w => checkValue_pok f suite false isPart none t' w)
      (fun t' w c' hc' cs' r' cp' e1 e2 =>
        hIH none none t' w c' hc' cs' r' cp' e1 e2)
      isPart v hreqimp hstepS (any_false_mem hanyP cS hcSmem) hstep
  rw [heqPp]
  show (c1p.failed || cpP.any (·.failed)) = false
  have hc1pf : c1p.failed = false := by
    rw [heqBp]
    show (ctx.failed || cpB.any (·.failed)) = false
    rw [hctx, any_false_of_mem hBp]
    rfl
  rw [hc1pf, any_false_of_mem hPp]
  rfl

/-- Strict-implies-plain through the index-signature stage of the iface
checker. -/
theorem iface_index_stp (f : Nat) (suite : Suite) (isPart : Bool)
    (hIH : ∀ (t : TType) (v : Value) (ctx : Ctx), ctx.failed = false → ∀ cs r cp,
      checkValue f suite true isPart none t v ctx = some (true, cs) →
      checkValue f suite false isPart none t v ctx = some (r, cp) → r = true)
    (v : Value) (ixt : TType) {c2s c2p c3s c3p : Ctx}
    (hc3s : forkAll (indexStep (fun w c => checkValue f suite true isPart none ixt w c) v)
      (ownKeys v) c2s = some c3s)
    (hc3p : forkAll (indexStep (fun w c => checkValue f suite false isPart none ixt w c) v)
      (ownKeys v) c2p = some c3p)
    (hf3 : c3s.failed = false) (hc2pf : c2p.failed = false) :
    c3p.failed = false := by
  obtain ⟨csI, hmapI, heqI⟩ := forkAll_some hc3s
  have h3 : (c2s.failed || csI.any (·.failed)) = false := by rw [heqI] at hf3; exact hf3
  obtain ⟨_, hanyI⟩ := or_false_split h3
  obtain ⟨cpI, hmapIp, heqIp⟩ := forkAll_some hc3p
  have hIp : ∀ c ∈ cpI, c.failed = false := by
    intro c hc
    obtain ⟨key, hkey, hstep⟩ := mapM_some_mem hmapIp c hc
    obtain ⟨cS, hcSmem, hstepS⟩ := mapM_some_forall hmapI key hkey
    exact indexStep_stp (fun w => checkValue_pok f suite false isPart none ixt w)
      (fun w c' hc' cs' r' cp' e1 e2 => hIH ixt w c' hc' cs' r' cp' e1 e2)
      v hstepS (any_false_mem hanyI cS hcSmem) hstep
  rw [heqIp]
  show (c2p.failed || cpI.any (·.failed)) = false
  rw [hc2pf, any_false_of_mem hIp]
  rfl

/-- Strict mode only adds rejections: whenever the strict checker accepts a
value and the plain checker's run finishes, the plain checker accepts it too
— for every type node, either isPartial flag and any allowedProps sets. -/
theorem strict_to_plain (f : Nat) : ∀ (suite : Suite) (isPart : Bool)
    (al al' : Option (List String)) (t : TType) (v : Value) (ctx : Ctx),
    ctx.failed = false →
    ∀ cs r cp, checkValue f suite true isPart al t v ctx = some (true, cs) →
      checkValue f suite false isPart al' t v ctx = some (r, cp) → r = true := by
  induction f with
  | zero => intro _ _ _ _ _ _ _ _ _ _ _ h1 _; exact nomatch h1
  | succ f ih =>
    intro suite isPart al al' t v ctx hctx cs r cp h1 h2
    cases t with
    | basic k =>
      simp only [checkValue] at h1 h2
      rw [h1] at h2
      cases h2
      rfl
    | literal lv =>
      simp only [checkValue] at h1 h2
      rw [h1] at h2
      cases h2
      rfl
    | tenum members =>
      simp only [checkValue] at h1 h2
      rw [h1] at h2
      cases h2
      rfl
    | tenumlit en p =>
      simp only [checkValue] at h1 h2
      rw [h1] at h2
      cases h2
      rfl
    | tfunc params result =>
      simp only [checkValue] at h1 h2
      rw [h1] at h2
      cases h2
      rfl
    | tname n =>
      simp only [checkValue] at h1 h2
      split at h1
      · exact nomatch h1
      · rename_i tt htt
        simp only [htt] at h2
        split at h1
        · exact nomatch h1
        · rename_i b1 c1 hc1
          have hb1 : b1 = true := by
            split at h1
            · cases h1; rfl
            · cases h1; rfl
            · split at h1
              · assumption
              · exact absurd h1 (by simp)
          subst hb1
          split at h2
          · exact nomatch h2
          · rename_i b2 c2 hc2
            have hb2 : b2 = true := ih suite isPart al al' tt v ctx hctx c1 b2 c2 hc1 hc2
            subst hb2
            split at h2
            · cases h2; rfl
            · cases h2; rfl
            · split at h2
              · cases h2; rfl
              · rename_i hb2f
                exact absurd rfl hb2f
    | tarray it =>
      cases v
      case arr items =>
        simp only [checkValue] at h1 h2
        exact arrayLoop_stp (fun w => checkValue_pok f suite true false none it w)
          (fun w => checkValue_pok f suite false false none it w)
          (fun w c hc cs' r' cp' e1 e2 => ih suite false none none it w c hc cs' r' cp' e1 e2)
          items 0 ctx hctx cs r cp h1 h2
      all_goals (simp only [checkValue] at h1; exact absurd h1 (by simp))
    | trest spec start =>
      simp only [checkValue] at h1 h2
      split at h1
      · rename_i it hres
        simp only [hres] at h2
        cases start with
        | none =>
          cases h2
          rfl
        | some s =>
          cases v
          case arr items =>
            exact arrayLoop_stp (fun w => checkValue_pok f suite true false none it w)
              (fun w => checkValue_pok f suite false false none it w)
              (fun w c hc cs' r' cp' e1 e2 =>
                ih suite false none none it w c hc cs' r' cp' e1 e2)
              (items.drop s) s ctx hctx cs r cp h1 h2
          all_goals (cases h2; rfl)
      · exact nomatch h1
    | ttuple ttypes restType =>
      cases restType with
      | some sp =>
        obtain ⟨spec, start⟩ := sp
        simp only [checkValue] at h1 h2
        split at h1
        · exact nomatch h1
        · exact absurd h1 (by simp)
        · rename_i c1 hc1
          split at h2
          · exact nomatch h2
          · rename_i c2 hc2
            exact absurd
              (tupleBase_stp (fun t' w => checkValue_pok f suite true false none t' w)
                (fun t' w => checkValue_pok f suite false false none t' w)
                (fun t' w c hc cs' r' cp' e1 e2 =>
                  ih suite false none none t' w c hc cs' r' cp' e1 e2)
                ttypes v ctx hctx hc1 hc2) (by simp)
          · rename_i c2 hc2
            have e1 : c1 = ctx :=
              POk.success_eq (tupleBase_pok
                (fun t' w => checkValue_pok f suite true false none t' w) ttypes v) hctx hc1
            have e2 : c2 = ctx :=
              POk.success_eq (tupleBase_pok
                (fun t' w => checkValue_pok f suite false false none t' w) ttypes v) hctx hc2
            rw [e1] at h1
            rw [e2] at h2
            exact ih suite false none none (.trest spec (some start)) v ctx hctx cs r cp h1 h2
      | none =>
        simp only [checkValue] at h1 h2
        split at h2
        · rename_i hcond
          exact absurd hcond (by simp)
        · split at h1
          · split at h1
            · exact nomatch h1
            · exact absurd h1 (by simp)
            · rename_i c1 hc1
              exact tupleBase_stp (fun t' w => checkValue_pok f suite true false none t' w)
                (fun t' w => checkValue_pok f suite false false none t' w)
                (fun t' w c hc cs' r' cp' e1 e2 =>
                  ih suite false none none t' w c hc cs' r' cp' e1 e2)
                ttypes v ctx hctx hc1 h2
          · rename_i hcond
            exact absurd (by trivial) hcond
    | tunion ts =>
      simp only [checkValue] at h1 h2
      split at h1
      · exact nomatch h1
      · rename_i hu1
        split at h2
        · exact nomatch h2
        · cases h2; rfl
        · rename_i children hch
          obtain ⟨t0, ht0, c0, hc0⟩ := unionLoop_success hu1
          obtain ⟨c0', hc0'⟩ := unionLoop_failed hch t0 ht0
          exact absurd (ih suite isPart al al' t0 v Ctx.empty rfl c0 false c0' hc0 hc0')
            (by simp)
      · exact absurd h1 (by simp)
    | tinter ts =>
      simp only [checkValue] at h1 h2
      split at h1
      · exact nomatch h1
      · rename_i c1s hc1s
        have hfs : c1s.failed = false := by
          have hinj := h1
          rw [Option.some.injEq, Prod.mk.injEq] at hinj
          cases hcc : c1s.failed
          · rfl
          · rw [hcc] at hinj
            exact nomatch hinj.1
        obtain ⟨csS, hmapS, heqS⟩ := forkAll_some hc1s
        have h0 : (ctx.failed || csS.any (·.failed)) = false := by
          rw [heqS] at hfs; exact hfs
        obtain ⟨_, hanyS⟩ := or_false_split h0
        split at h2
        · exact nomatch h2
        · rename_i c1p hc1p
          have hbp : c1p.failed = false := by
            obtain ⟨csP, hmapP, heqP⟩ := forkAll_some hc1p
            have hptw : ∀ c ∈ csP, c.failed = false := by
              intro c hc
              obtain ⟨t', ht', hstep⟩ := mapM_some_mem hmapP c hc
              obtain ⟨cS, hcSmem, hstepS⟩ := mapM_some_forall hmapS t' ht'
              exact sndStep_stp (checkValue_pok f suite true isPart _ t' v)
                (checkValue_pok f suite false isPart _ t' v)
                (fun cs' r' cp' e1 e2 =>
                  ih suite isPart _ _ t' v Ctx.empty rfl cs' r' cp' e1 e2)
                hstepS (any_false_mem hanyS cS hcSmem) hstep
            rw [heqP]
            show (ctx.failed || csP.any (·.failed)) = false
            rw [hctx, any_false_of_mem hptw]
            rfl
          have hre : r = !c1p.failed := by cases h2; rfl
          rw [hre, hbp]
          rfl
    | tpart t' =>
      cases v
      case undef =>
        simp only [checkValue] at h2
        cases h2
        rfl
      all_goals (
        simp only [checkValue] at h1 h2
        exact ih suite true none none t' _ ctx hctx cs r cp h1 h2)
    | toption t' =>
      cases v
      case undef =>
        simp only [checkValue] at h2
        cases h2
        rfl
      all_goals (
        simp only [checkValue] at h1 h2
        exact ih suite false none none t' _ ctx hctx cs r cp h1 h2)
    | tiface bases props indexType =>
      cases indexType with
      | some ixt =>
        simp only [checkValue] at h1 h2
        split at h1
        · exact nomatch h1
        · rename_i baseTs hbTs
          simp only [hbTs] at h2
          split at h1
          · exact nomatch h1
          · rename_i reqs₁ hreqs₁
            split at h2
            · exact nomatch h2
            · rename_i reqs₂ hreqs₂
              split at h1
              · rename_i hobj
                rw [if_pos hobj] at h2
                split at h1
                · exact nomatch h1
                · rename_i c1s hc1s
                  split at h1
                  · exact nomatch h1
                  · rename_i c2s hc2s
                    split at h2
                    · exact nomatch h2
                    · rename_i c1p hc1p
                      split at h2
                      · exact nomatch h2
                      · rename_i c2p hc2p
                        split at h1
                        · exact nomatch h1
                        · rename_i c3s hc3s
                          split at h2
                          · exact nomatch h2
                          · rename_i c3p hc3p
                            have hre : r = !c3p.failed := by cases h2; rfl
                            have hfs : c3s.failed = false := by
                              have hinj := h1
                              rw [Option.some.injEq, Prod.mk.injEq] at hinj
                              cases hcc : c3s.failed
                              · rfl
                              · rw [hcc] at hinj
                                exact nomatch hinj.1
                            obtain ⟨csI, hmapI, heqI⟩ := forkAll_some hc3s
                            have h3 : (c2s.failed || csI.any (·.failed)) = false := by
                              rw [heqI] at hfs; exact hfs
                            obtain ⟨hf2, _⟩ := or_false_split h3
                            have hc2pf : c2p.failed = false :=
                              iface_stages_stp f suite isPart
                                (fun alx aly t' w c' hc' cs' r' cp' e1 e2 =>
                                  ih suite isPart alx aly t' w c' hc' cs' r' cp' e1 e2)
                                v ctx hctx baseTs props _ _ hreqs₁ hreqs₂
                                hc1s hc2s hc1p hc2p hf2
                            have hc3pf : c3p.failed = false :=
                              iface_index_stp f suite isPart
                                (fun t' w c' hc' cs' r' cp' e1 e2 =>
                                  ih suite isPart none none t' w c' hc' cs' r' cp' e1 e2)
                                v ixt hc3s hc3p hfs hc2pf
                            rw [hre, hc3pf]
                            rfl
              · exact absurd h1 (by simp)
      | none =>
        simp only [checkValue] at h1 h2
        split at h1
        · exact nomatch h1
        · rename_i baseTs hbTs
          simp only [hbTs] at h2
          split at h1
          · exact nomatch h1
          · rename_i reqs₁ hreqs₁
            split at h2
            · exact nomatch h2
            · rename_i reqs₂ hreqs₂
              split at h1
              · rename_i hobj
                rw [if_pos hobj] at h2
                split at h1
                · exact nomatch h1
                · rename_i c1s hc1s
                  split at h1
                  · exact nomatch h1
                  · rename_i c2s hc2s
                    split at h2
                    · exact nomatch h2
                    · rename_i c1p hc1p
                      split at h2
                      · exact nomatch h2
                      · rename_i c2p hc2p
                        -- plain has no extraneous stage here
                        have hre : r = !c2p.failed := by cases h2; rfl
                        · split at h1
                          · split at h1
                            · exact nomatch h1
                            · rename_i c3s hc3s
                              have hfs : c3s.failed = false := by
                                have hinj := h1
                                rw [Option.some.injEq, Prod.mk.injEq] at hinj
                                cases hcc : c3s.failed
                                · rfl
                                · rw [hcc] at hinj
                                  exact nomatch hinj.1
                              obtain ⟨csE, hmapE, heqE⟩ := forkAll_some hc3s
                              have hE : (c2s.failed || csE.any (·.failed)) = false := by
                                rw [heqE] at hfs; exact hfs
                              obtain ⟨hf2, _⟩ := or_false_split hE
                              have hc2pf : c2p.failed = false :=
                                iface_stages_stp f suite isPart
                                  (fun alx aly t' w c' hc' cs' r' cp' e1 e2 =>
                                    ih suite isPart alx aly t' w c' hc' cs' r' cp' e1 e2)
                                  v ctx hctx baseTs props _ _ hreqs₁ hreqs₂
                                  hc1s hc2s hc1p hc2p hf2
                              rw [hre, hc2pf]
                              rfl
                          · rename_i hcond
                            exact absurd (by trivial) hcond
              · exact absurd h1 (by simp)
    | tparamlist params =>
      simp only [checkValue] at h1 h2
      split at h1
      · exact nomatch h1
      · rename_i reqs₁ hreqs₁
        split at h2
        · exact nomatch h2
        · rename_i reqs₂ hreqs₂
          have hrel : List.Forall₂ (fun a b => a.1 = b.1 ∧ (b.2 = true → a.2 = true))
              (params.zip reqs₁) (params.zip reqs₂) := by
            refine List.Forall₂.imp ?_ (forall2_zip_of_mapM hreqs₁ hreqs₂)
            intro a b hab
            obtain ⟨hfst, hpa, hpb⟩ := hab
            refine ⟨hfst, ?_⟩
            exact probe_imp f suite false
              (fun t' w c' hc' cs' r' cp' e1 e2 =>
                ih suite false none none t' w c' hc' cs' r' cp' e1 e2)
              (hfst ▸ hpa) hpb
          split at h2
          · rename_i hcond
            exact absurd hcond (by simp)
          · split at h1
            · split at h1
              · exact nomatch h1
              · exact absurd h1 (by simp)
              · rename_i c1 hc1
                exact paramBase_stp (fun t' w => checkValue_pok f suite true false none t' w)
                  (fun t' w => checkValue_pok f suite false false none t' w)
                  (fun t' w c hc cs' r' cp' e1 e2 =>
                    ih suite false none none t' w c hc cs' r' cp' e1 e2)
                  hrel v ctx hctx hc1 h2
            · rename_i hcond
              exact absurd (by trivial) hcond

/-! ## Facade soundness -/

/-- `test` true makes `validate` return null and `check` return without
throwing: all three first run the same compiled checker on a fresh no-op
context. -/
theorem test_sound (f : Nat) (suite : Suite) (strict : Bool) (t : TType) (v : Value)
    (h : testV f suite strict t v = some true) :
    validateV f suite strict t v = some none ∧ checkThrows f suite strict t v = some none := by
  rw [testV] at h
  cases hc : checkValue f suite strict false none t v Ctx.empty with
  | none => rw [hc] at h; exact nomatch h
  | some rc =>
    obtain ⟨b, c⟩ := rc
    rw [hc] at h
    have hb : b = true := by cases h; rfl
    subst hb
    constructor
    · rw [validateV, hc]
    · rw [checkThrows, hc]

/-- **C1.** For every compiled checker and value: if `test(v)` returns true,
then `validate(v)` returns null and `check(v)` does not throw, and likewise
`strictTest` with `strictValidate`/`strictCheck` — because `check` and
`validate` first run the same compiled checker on a no-op context and only
build an error on failure. -/
theorem c1_soundness (f : Nat) (suite : Suite) (t : TType) (v : Value) :
    (testV f suite false t v = some true →
      validateV f suite false t v = some none ∧ checkThrows f suite false t v = some none) ∧
    (testV f suite true t v = some true →
      validateV f suite true t v = some none ∧ checkThrows f suite true t v = some none) :=
  ⟨test_sound f suite false t v, test_sound f suite true t v⟩

theorem c1_soundness_witness :
    (validateV 3 basicTypes false (.basic .number) (.num 3) = some none ∧
      checkThrows 3 basicTypes false (.basic .number) (.num 3) = some none) ∧
    (validateV 3 basicTypes true (.basic .number) (.num 3) = some none ∧
      checkThrows 3 basicTypes true (.basic .number) (.num 3) = some none) :=
  ⟨(c1_soundness 3 basicTypes (.basic .number) (.num 3)).1 (by rfl),
   (c1_soundness 3 basicTypes (.basic .number) (.num 3)).2 (by rfl)⟩

/-- **C2.** For every type node and value, the strict compiled checker
accepts only if the plain one does: `strictTest(v)` implies `test(v)` (both
runs assumed to finish; strict mode only adds rejections). -/
theorem c2_strict_implies_plain (f : Nat) (suite : Suite) (t : TType) (v : Value)
    (b : Bool)
    (h1 : testV f suite true t v = some true) (h2 : testV f suite false t v = some b) :
    b = true := by
  rw [testV] at h1 h2
  cases hc1 : checkValue f suite true false none t v Ctx.empty with
  | none => rw [hc1] at h1; exact nomatch h1
  | some rc1 =>
    obtain ⟨b1, c1⟩ := rc1
    rw [hc1] at h1
    have hb1 : b1 = true := by cases h1; rfl
    subst hb1
    cases hc2 : checkValue f suite false false none t v Ctx.empty with
    | none => rw [hc2] at h2; exact nomatch h2
    | some rc2 =>
      obtain ⟨b2, c2⟩ := rc2
      rw [hc2] at h2
      have hb2 : b2 = b := by cases h2; rfl
      subst hb2
      exact strict_to_plain f suite false none none t v Ctx.empty rfl _ _ _ hc1 hc2

/-- The spec's `Person` interface, written as the builders would produce it. -/
def PersonT : TType :=
  .tiface [] [("name", .tname "string", false), ("age", .tname "number", false)] none

theorem c2_strict_implies_plain_witness :
    (true : Bool) = true :=
  c2_strict_implies_plain 9 basicTypes PersonT
    (.obj [("name", .str "A"), ("age", .num 3)]) true (by rfl) (by rfl)

/-! ## Union verdict (C9) -/

/-- The boolean verdict of a union checker: true exactly when some
alternative accepts the value in a fresh child context. -/
theorem union_verdict {f : Nat} {suite : Suite} {strict isPart : Bool}
    {al : Option (List String)} {ts : List TType} {v : Value} {ctx : Ctx}
    {b : Bool} {c : Ctx}
    (h : checkValue (f + 1) suite strict isPart al (.tunion ts) v ctx = some (b, c)) :
    (b = true ↔ ∃ t ∈ ts, ∃ c',
      checkValue f suite strict isPart al t v Ctx.empty = some (true, c')) := by
  simp only [checkValue] at h
  split at h
  · exact nomatch h
  · rename_i hu
    have hb : b = true := by cases h; rfl
    exact ⟨fun _ => unionLoop_success hu, fun _ => hb⟩
  · rename_i children hch
    have hb : b = false := by cases h; rfl
    constructor
    · intro hbt
      rw [hbt] at hb
      exact nomatch hb
    · rintro ⟨t, ht, c', hc'⟩
      obtain ⟨c'', hc''⟩ := unionLoop_failed hch t ht
      rw [hc'] at hc''
      exact absurd hc'' (by simp)

/-- **C9.** `Union(A,B).test(v) == Union(B,A).test(v)`: the boolean outcome
of a union check does not depend on the order of the alternatives (both runs
assumed to finish; only the diagnostic branch selection may differ). -/
theorem c9_union_commutative (f : Nat) (suite : Suite) (A B : TType) (v : Value)
    (b₁ b₂ : Bool)
    (h1 : testV f suite false (.tunion [A, B]) v = some b₁)
    (h2 : testV f suite false (.tunion [B, A]) v = some b₂) : b₁ = b₂ := by
  cases f with
  | zero => rw [testV] at h1; exact nomatch h1
  | succ f =>
    rw [testV] at h1 h2
    cases hc1 : checkValue (f + 1) suite false false none (.tunion [A, B]) v Ctx.empty with
    | none => rw [hc1] at h1; exact nomatch h1
    | some rc1 =>
      obtain ⟨bb₁, cc₁⟩ := rc1
      rw [hc1] at h1
      obtain rfl : bb₁ = b₁ := by cases h1; rfl
      cases hc2 : checkValue (f + 1) suite false false none (.tunion [B, A]) v Ctx.empty with
      | none => rw [hc2] at h2; exact nomatch h2
      | some rc2 =>
        obtain ⟨bb₂, cc₂⟩ := rc2
        rw [hc2] at h2
        obtain rfl : bb₂ = b₂ := by cases h2; rfl
        have v1 := union_verdict hc1
        have v2 := union_verdict hc2
        cases hb1 : bb₁ with
        | true =>
          obtain ⟨t, ht, c', hc'⟩ := v1.mp hb1
          have hswap : t ∈ [B, A] := by
            rcases List.mem_cons.mp ht with rfl | ht'
            · simp
            · simp at ht'
              simp [ht']
          exact (v2.mpr ⟨t, hswap, c', hc'⟩).symm
        | false =>
          cases hb2 : bb₂ with
          | true =>
            obtain ⟨t, ht, c', hc'⟩ := v2.mp hb2
            have hswap : t ∈ [A, B] := by
              rcases List.mem_cons.mp ht with rfl | ht'
              · simp
              · simp at ht'
                simp [ht']
            have := v1.mpr ⟨t, hswap, c', hc'⟩
            rw [hb1] at this
            exact nomatch this
          | false => rfl

theorem c9_union_commutative_witness : (true : Bool) = true :=
  c9_union_commutative 3 basicTypes (.basic .string) (.basic .number) (.num 7)
    true true (by rfl) (by rfl)

/-! ## Intersection (C3) -/

theorem mapM_of_forall {g : α → Option β} {h : α → β} :
    ∀ {xs : List α}, (∀ x ∈ xs, g x = some (h x)) → xs.mapM g = some (xs.map h) := by
  intro xs
  induction xs with
  | nil => intro _; rfl
  | cons x xs ih =>
    intro hp
    rw [List.mapM_cons, hp x (by simp), ih (fun y hy => hp y (by simp [hy]))]
    rfl

/-- **C3.** The intersection checker evaluates every conjunct's checker in a
fork of the context and returns true iff no conjunct recorded a failure (and
the incoming context was unfailed); every conjunct is evaluated even when an
earlier one fails — the merged context carries all conjuncts' frames. -/
theorem c3_intersection_runs_all (f : Nat) (suite : Suite) (strict isPart : Bool)
    (al : Option (List String)) (ts : List TType) (v : Value) (ctx : Ctx)
    (cs : List Ctx)
    (hmap : ts.mapM (fun t =>
      (checkValue f suite strict isPart
        (some (match al with
          | some s => s
          | none => collectAllowed (f + 1) suite (.tinter ts))) t v Ctx.empty).map (·.2))
      = some cs) :
    checkValue (f + 1) suite strict isPart al (.tinter ts) v ctx =
      some (!(ctx.failed || cs.any (·.failed)),
        ⟨ctx.failed || cs.any (·.failed), ctx.frames ++ (cs.map (·.frames)).flatten⟩) := by
  simp only [checkValue]
  rw [forkAll_of_mapM hmap ctx]

theorem c3_intersection_runs_all_witness :
    checkValue 3 basicTypes false false none
        (.tinter [.basic .string, .basic .number]) (.num 3) Ctx.empty =
      some (false,
        ⟨true, [⟨none, some "is not a string", 0⟩]⟩) := by
  have h := c3_intersection_runs_all 2 basicTypes false false none
    [.basic .string, .basic .number] (.num 3) Ctx.empty
    [⟨true, [⟨none, some "is not a string", 0⟩]⟩, ⟨false, []⟩] (by rfl)
  rw [h]
  rfl

/-! ## Required properties and `is missing` (C5) -/

/-- `mapM` pairs each element with its image, position by position. -/
theorem zip_mem_of_mapM {g : α → Option β} : ∀ {xs : List α} {ys : List β},
    xs.mapM g = some ys → ∀ x ∈ xs, ∀ y, g x = some y → (x, y) ∈ xs.zip ys := by
  intro xs
  induction xs with
  | nil =>
    intro ys h x hx
    exact absurd hx (by simp)
  | cons x0 xs ih =>
    intro ys h x hx y hy
    rw [List.mapM_cons] at h
    cases h0 : g x0 with
    | none => rw [h0] at h; exact nomatch h
    | some y0 =>
      rw [h0] at h
      cases hs : xs.mapM g with
      | none => rw [hs] at h; exact nomatch h
      | some ys0 =>
        rw [hs] at h
        simp only [Option.pure_def, Option.bind_eq_bind, Option.some_bind,
          Option.some.injEq] at h
        subst h
        rcases List.mem_cons.mp hx with rfl | hx'
        · rw [h0] at hy
          cases hy
          simp [List.zip_cons_cons]
        · exact List.mem_cons_of_mem _ (ih hs x hx' y hy)

/-- If one fork child fails, the whole `forkAll` result is failed and keeps
the child's frames. -/
theorem forkAll_failed_child {step : α → Option Ctx} {xs : List α} {ctx c' : Ctx}
    (h : forkAll step xs ctx = some c') {x : α} (hx : x ∈ xs) {cx : Ctx}
    (hcx : step x = some cx) (hfx : cx.failed = true) {fr : Frame} (hfr : fr ∈ cx.frames) :
    c'.failed = true ∧ fr ∈ c'.frames := by
  obtain ⟨cs, hmap, rfl⟩ := forkAll_some h
  obtain ⟨cy, hcy, hstep⟩ := mapM_some_forall hmap x hx
  rw [hcx] at hstep
  cases hstep
  constructor
  · simp only [Bool.or_eq_true]
    exact Or.inr (List.any_eq_true.mpr ⟨cx, hcy, hfx⟩)
  · exact List.mem_append.mpr (.inr (List.mem_flatten.mpr
      ⟨cx.frames, List.mem_map_of_mem _ hcy, hfr⟩))

/-- A later `forkAll` stage preserves an established failure and its frame. -/
theorem forkAll_propagate {step : α → Option Ctx} {xs : List α} {ctx c' : Ctx}
    (h : forkAll step xs ctx = some c') (hf : ctx.failed = true) {fr : Frame}
    (hfr : fr ∈ ctx.frames) : c'.failed = true ∧ fr ∈ c'.frames := by
  obtain ⟨cs, hmap, rfl⟩ := forkAll_some h
  exact ⟨by simp [hf], List.mem_append.mpr (.inl hfr)⟩

/-- **C5.** A property of an interface is required exactly when it is not
declared optional and its compiled checker rejects `undefined` (the probe the
interface checker runs up front); checking an object that lacks a required
property fails its fork with `is missing` at the property name, a missing
non-required property is skipped (its fork succeeds with no frames), and the
whole interface check then returns false carrying the `is missing` frame. -/
theorem c5_required_missing (f : Nat) (suite : Suite) (strict : Bool)
    (pname : String) (pty : TType) (popt : Bool) (req : Bool) (v : Value)
    (hreq : (checkValue f suite strict false none pty .undef Ctx.empty).map
      (fun rr => !popt && !rr.1) = some req)
    (hmiss : getProp v pname = .undef) :
    (req = true ↔ popt = false ∧
      (checkValue f suite strict false none pty .undef Ctx.empty).map (·.1) = some false) ∧
    (req = true →
      propStep (fun t' w c => checkValue f suite strict false none t' w c) false v
        ((pname, pty, popt), req) =
        some (Ctx.empty.fail (some (.name pname)) (some "is missing") 1)) ∧
    (req = false →
      propStep (fun t' w c => checkValue f suite strict false none t' w c) false v
        ((pname, pty, popt), req) = some Ctx.empty) ∧
    (∀ (bases : List String) (props : List (String × TType × Bool))
        (indexType : Option TType) (ctx : Ctx) (r : Bool) (ctxF : Ctx),
      (pname, pty, popt) ∈ props → req = true → isObjectLike v = true →
      checkValue (f + 1) suite strict false none (.tiface bases props indexType) v ctx
        = some (r, ctxF) →
      r = false ∧ (⟨some (.name pname), some "is missing", 1⟩ : Frame) ∈ ctxF.frames) := by
  cases hp : checkValue f suite strict false none pty .undef Ctx.empty with
  | none => rw [hp] at hreq; exact nomatch hreq
  | some rr =>
    obtain ⟨b0, c0⟩ := rr
    rw [hp] at hreq
    have hreq' : (!popt && !b0) = req := by cases hreq; rfl
    have hstep : req = true →
        propStep (fun t' w c => checkValue f suite strict false none t' w c) false v
          ((pname, pty, popt), req) =
          some (Ctx.empty.fail (some (.name pname)) (some "is missing") 1) := by
      intro hr
      simp only [propStep, hmiss, hr]
      rfl
    refine ⟨?_, hstep, ?_, ?_⟩
    · constructor
      · intro h
        rw [← hreq'] at h
        have hpb : popt = false ∧ b0 = false := by
          cases popt <;> cases b0 <;> simp_all
        refine ⟨hpb.1, ?_⟩
        rw [hpb.2]
        rfl
      · rintro ⟨h1, h2⟩
        have hb0 : b0 = false := by cases h2; rfl
        rw [← hreq', h1, hb0]
        rfl
    · intro hr
      simp only [propStep, hmiss, hr]
      rfl
    · intro bases props indexType ctx r ctxF hmem hreqt hobj hrun
      have hps := hstep hreqt
      have hfrm : (⟨some (.name pname), some "is missing", 1⟩ : Frame) ∈
          (Ctx.empty.fail (some (.name pname)) (some "is missing") 1).frames := by
        simp [Ctx.fail, Ctx.empty]
      have hfld : (Ctx.empty.fail (some (.name pname)) (some "is missing") 1).failed
          = true := rfl
      cases indexType with
      | none =>
        simp only [checkValue] at hrun
        split at hrun
        · exact nomatch hrun
        · rename_i baseTs hbase
          split at hrun
          · exact nomatch hrun
          · rename_i reqs hreqs
            have hg : (fun (p : String × TType × Bool) =>
                (checkValue f suite strict false none p.2.1 .undef Ctx.empty).map
                  (fun r => !p.2.2 && !r.1)) (pname, pty, popt) = some req := by
              show (checkValue f suite strict false none pty .undef Ctx.empty).map
                (fun r => !popt && !r.1) = some req
              rw [hp]
              exact hreq
            have hzip := zip_mem_of_mapM hreqs (pname, pty, popt) hmem req hg
            split at hrun
            · split at hrun
              · exact nomatch hrun
              · rename_i c1 hc1
                split at hrun
                · exact nomatch hrun
                · rename_i c2 hc2
                  have h2 := forkAll_failed_child hc2 hzip hps hfld hfrm
                  split at hrun
                  · split at hrun
                    · exact nomatch hrun
                    · rename_i c3 hc3
                      have h3 := forkAll_propagate hc3 h2.1 h2.2
                      rw [Option.some.injEq, Prod.mk.injEq] at hrun
                      obtain ⟨hr0, hcf⟩ := hrun
                      subst hcf
                      refine ⟨?_, h3.2⟩
                      rw [← hr0, h3.1]
                      rfl
                  · rw [Option.some.injEq, Prod.mk.injEq] at hrun
                    obtain ⟨hr0, hcf⟩ := hrun
                    subst hcf
                    refine ⟨?_, h2.2⟩
                    rw [← hr0, h2.1]
                    rfl
            · rename_i hcond
              exact absurd hobj hcond
      | some ixt =>
        simp only [checkValue] at hrun
        split at hrun
        · exact nomatch hrun
        · rename_i baseTs hbase
          split at hrun
          · exact nomatch hrun
          · rename_i reqs hreqs
            have hg : (fun (p : String × TType × Bool) =>
                (checkValue f suite strict false none p.2.1 .undef Ctx.empty).map
                  (fun r => !p.2.2 && !r.1)) (pname, pty, popt) = some req := by
              show (checkValue f suite strict false none pty .undef Ctx.empty).map
                (fun r => !popt && !r.1) = some req
              rw [hp]
              exact hreq
            have hzip := zip_mem_of_mapM hreqs (pname, pty, popt) hmem req hg
            split at hrun
            · split at hrun
              · exact nomatch hrun
              · rename_i c1 hc1
                split at hrun
                · exact nomatch hrun
                · rename_i c2 hc2
                  have h2 := forkAll_failed_child hc2 hzip hps hfld hfrm
                  split at hrun
                  · exact nomatch hrun
                  · rename_i c3 hc3
                    have h3 := forkAll_propagate hc3 h2.1 h2.2
                    rw [Option.some.injEq, Prod.mk.injEq] at hrun
                    obtain ⟨hr0, hcf⟩ := hrun
                    subst hcf
                    refine ⟨?_, h3.2⟩
                    rw [← hr0, h3.1]
                    rfl
            · rename_i hcond
              exact absurd hobj hcond

theorem c5_required_missing_witness :
    (false : Bool) = false ∧
      (⟨some (.name "age"), some "is missing", 1⟩ : Frame) ∈
        (⟨true, [⟨some (.name "age"), some "is missing", 1⟩]⟩ : Ctx).frames :=
  (c5_required_missing 8 basicTypes false "age" (.tname "number") false true
      (.obj [("name", .str "A")]) (by rfl) (by rfl)).2.2.2
    [] [("name", .tname "string", false), ("age", .tname "number", false)]
    none Ctx.empty false ⟨true, [⟨some (.name "age"), some "is missing", 1⟩]⟩
    (by simp) rfl (by rfl) (by rfl)

/-! ## Partial weakening (C7) -/

theorem forkAll_nil {step : α → Option Ctx} (ctx : Ctx) : forkAll step [] ctx = some ctx :=
  rfl

/-- A `Partial` wrapper on a defined (non-`undefined`) value just runs the
item checker compiled with `isPartial = true`. -/
theorem tpart_not_undef {f : Nat} {suite : Suite} {strict isPart : Bool}
    {al : Option (List String)} {t' : TType} {v : Value} (hv : v ≠ .undef) (ctx : Ctx) :
    checkValue (f + 1) suite strict isPart al (.tpart t') v ctx =
      checkValue f suite strict true none t' v ctx := by
  cases v
  case undef => exact absurd rfl hv
  all_goals rfl

/-- A present property runs its checker on a fork; a passing run keeps the
fork's context. -/
theorem propStep_present {check : TType → Value → Ctx → Option (Bool × Ctx)}
    {isPart : Bool} {v : Value} {pname : String} {pty : TType} {popt : Bool}
    {req : Bool} {c : Ctx}
    (hne : getProp v pname ≠ .undef)
    (hc : check pty (getProp v pname) Ctx.empty = some (true, c)) :
    propStep check isPart v ((pname, pty, popt), req) = some c := by
  simp only [propStep]
  split
  · rename_i heq
    rw [hc] at heq
    exact nomatch heq
  · rename_i c2 heq
    rw [hc] at heq
    obtain rfl : c = c2 := by cases heq; rfl
    rfl
  · rename_i c2 heq
    rw [hc] at heq
    simp at heq

/-- Inside a `Partial`, a missing property is always skipped. -/
theorem propStep_undef_partial {check : TType → Value → Ctx → Option (Bool × Ctx)}
    {v : Value} {pname : String} {pty : TType} {popt : Bool} {req : Bool}
    (hgp : getProp v pname = .undef) :
    propStep check true v ((pname, pty, popt), req) = some Ctx.empty := by
  simp [propStep, hgp]

/-- **C7.** A checker compiled from `Partial(I)` accepts `undefined` for any
item type, and (for a base-free interface without index signature) accepts
any object all of whose present properties validate against `I`'s
corresponding property types — in particular the empty object; missing
required properties are never reported inside a `Partial`. -/
theorem c7_partial_weakening (f : Nat) (suite : Suite) :
    (∀ (strict isPart : Bool) (al : Option (List String)) (t' : TType) (ctx : Ctx),
      checkValue (f + 1) suite strict isPart al (.tpart t') .undef ctx = some (true, ctx)) ∧
    (∀ (props : List (String × TType × Bool)) (reqs : List Bool) (v : Value) (ctx : Ctx),
      ctx.failed = false → isObjectLike v = true →
      props.mapM (fun p =>
        (checkValue f suite false true none p.2.1 .undef Ctx.empty).map
          (fun r => !p.2.2 && !r.1)) = some reqs →
      (∀ p ∈ props, getProp v p.1 ≠ .undef →
        ∃ c', checkValue f suite false true none p.2.1 (getProp v p.1) Ctx.empty
          = some (true, c')) →
      checkValue (f + 2) suite false false none (.tpart (.tiface [] props none)) v ctx
        = some (true, ctx)) := by
  constructor
  · intro strict isPart al t' ctx
    rfl
  · intro props reqs v ctx hctx hobj hreqs hpresent
    have hv : v ≠ .undef := by
      intro h
      rw [h] at hobj
      exact nomatch hobj
    have hmap : (props.zip reqs).mapM
        (propStep (fun t' w c => checkValue f suite false true none t' w c) true v)
        = some ((props.zip reqs).map (fun _ => Ctx.empty)) := by
      apply mapM_of_forall
      intro pr hpr
      obtain ⟨⟨pn, pt, po⟩, q⟩ := pr
      obtain ⟨hp1, _⟩ := List.of_mem_zip hpr
      by_cases hgp : getProp v pn = .undef
      · exact propStep_undef_partial hgp
      · obtain ⟨c', hc'⟩ := hpresent (pn, pt, po) hp1 hgp
        have hce : c' = Ctx.empty :=
          (checkValue_pok f suite false true none pt (getProp v pn)).success_eq rfl hc'
        subst hce
        exact propStep_present hgp hc'
    obtain ⟨cf, cfr⟩ := ctx
    obtain rfl : cf = false := hctx
    rw [tpart_not_undef hv]
    simp only [checkValue, List.mapM_nil, Option.pure_def, hreqs, hobj, if_true,
      forkAll_nil, forkAll_of_mapM hmap]
    simp [Ctx.empty, List.any_map, Function.comp]

theorem c7_partial_weakening_witness :
    (checkValue 9 basicTypes false false none (.tpart PersonT) .undef Ctx.empty
        = some (true, Ctx.empty)) ∧
    (checkValue 10 basicTypes false false none
        (.tpart (.tiface [] [("name", .tname "string", false),
          ("age", .tname "number", false)] none)) (.obj []) Ctx.empty
        = some (true, Ctx.empty)) :=
  ⟨(c7_partial_weakening 8 basicTypes).1 false false none PersonT Ctx.empty,
   (c7_partial_weakening 8 basicTypes).2
     [("name", .tname "string", false), ("age", .tname "number", false)]
     [true, true] (.obj []) Ctx.empty rfl rfl (by rfl)
     (by
       intro p hp hne
       simp at hp
       rcases hp with rfl | rfl <;> exact absurd rfl hne)⟩

/-! ## ParamList: `undefined` at a required position (C10) -/

/-- After a passing prefix, a required parameter whose argument slot is
`undefined` stops the parameter loop with `is missing` at the parameter's
name — without consulting that parameter's checker (the conclusion does not
mention it). -/
theorem paramLoop_missing {check : TType → Value → Ctx → Option (Bool × Ctx)}
    {items : Value} {pname : String} {pty : TType} {popt : Bool}
    {Z : List ((String × TType × Bool) × Bool)} :
    ∀ {zpre : List ((String × TType × Bool) × Bool)} {i : Nat} {ctx cmid : Ctx},
    paramLoop check items zpre i ctx = some (true, cmid) →
    getIdx items (i + zpre.length) = .undef →
    paramLoop check items (zpre ++ ((pname, pty, popt), true) :: Z) i ctx =
      some (false, cmid.fail (some (.name pname)) (some "is missing") 1) := by
  intro zpre
  induction zpre with
  | nil =>
    intro i ctx cmid hpre hundef
    obtain rfl : ctx = cmid := by cases hpre; rfl
    simp only [List.length_nil, Nat.add_zero] at hundef
    simp [paramLoop, hundef]
  | cons p zpre ih =>
    intro i ctx cmid hpre hundef
    obtain ⟨⟨pn, pt, po⟩, req⟩ := p
    simp only [List.length_cons] at hundef
    have hundef' : getIdx items (i + 1 + zpre.length) = .undef := by
      rw [show i + 1 + zpre.length = i + (zpre.length + 1) from by omega]
      exact hundef
    simp only [paramLoop] at hpre
    split at hpre
    · rename_i heq
      split at hpre
      · exact nomatch hpre
      · rename_i hreq
        have hreqf : req = false := by cases req with | true => exact absurd rfl hreq | false => rfl
        subst hreqf
        simp only [List.cons_append, paramLoop, heq, Bool.false_eq_true, if_false]
        exact ih hpre hundef'
    · rename_i vi heq
      split at hpre
      · exact nomatch hpre
      · rename_i c hck
        simp only [List.cons_append, paramLoop, heq, hck]
        exact ih hpre hundef'
      · rename_i c hck
        exact nomatch hpre

/-- Unfolding the `TParamList` checker when the parameter loop fails: the
strict wrapper passes a failing base through unchanged. -/
theorem tparamlist_run {f : Nat} {suite : Suite} {strict : Bool}
    {params : List (String × TType × Bool)} {reqs : List Bool} {v : Value} {ctx c : Ctx}
    (hreqs : params.mapM (fun p =>
        (checkValue f suite strict false none p.2.1 .undef Ctx.empty).map
          (fun r => !p.2.2 && !r.1)) = some reqs)
    (hbase : paramBase (fun t' w c' => checkValue f suite strict false none t' w c')
      (params.zip reqs) v ctx = some (false, c)) :
    checkValue (f + 1) suite strict false none (.tparamlist params) v ctx
      = some (false, c) := by
  simp only [checkValue, hreqs]
  cases strict with
  | false =>
    rw [if_neg (by simp)]
    exact hbase
  | true =>
    rw [if_pos rfl, hbase]

/-- A slot at or past the end of the argument array reads as `undefined`. -/
theorem getIdx_past_take (items : List Value) (n : Nat) :
    getIdx (.arr (items.take n)) n = .undef := by
  simp only [getIdx]
  rw [List.get?_eq_none.mpr (by simp [List.length_take])]
  rfl

/-- **C10.** If the argument array carries `undefined` at the position of a
required parameter (the earlier positions passing), the `ParamList` checker
rejects with `is missing` at that parameter's name, in plain and strict mode
alike; the same outcome is produced when the argument is omitted (the array
truncated before that position), and the outcome is unchanged for any other
parameter type at that position — the parameter's own checker is never
consulted. -/
theorem c10_paramlist_undefined (f : Nat) (suite : Suite) (strict : Bool)
    (params : List (String × TType × Bool)) (reqs : List Bool)
    (pname : String) (pty : TType) (popt : Bool)
    (zpre Z : List ((String × TType × Bool) × Bool))
    (items : List Value) (ctx cmid : Ctx)
    (hreqs : params.mapM (fun p =>
        (checkValue f suite strict false none p.2.1 .undef Ctx.empty).map
          (fun r => !p.2.2 && !r.1)) = some reqs)
    (hsplit : params.zip reqs = zpre ++ ((pname, pty, popt), true) :: Z)
    (hpre : paramLoop (fun t' w c' => checkValue f suite strict false none t' w c')
      (.arr items) zpre 0 ctx = some (true, cmid))
    (hundef : getIdx (.arr items) zpre.length = .undef)
    (hpre2 : paramLoop (fun t' w c' => checkValue f suite strict false none t' w c')
      (.arr (items.take zpre.length)) zpre 0 ctx = some (true, cmid)) :
    checkValue (f + 1) suite strict false none (.tparamlist params) (.arr items) ctx
      = some (false, cmid.fail (some (.name pname)) (some "is missing") 1) ∧
    checkValue (f + 1) suite strict false none (.tparamlist params)
        (.arr (items.take zpre.length)) ctx
      = some (false, cmid.fail (some (.name pname)) (some "is missing") 1) ∧
    (∀ pty' : TType,
      paramLoop (fun t' w c' => checkValue f suite strict false none t' w c')
        (.arr items) (zpre ++ ((pname, pty', popt), true) :: Z) 0 ctx
        = some (false, cmid.fail (some (.name pname)) (some "is missing") 1)) := by
  have hz : 0 + zpre.length = zpre.length := by omega
  refine ⟨?_, ?_, ?_⟩
  · apply tparamlist_run hreqs
    simp only [paramBase]
    rw [hsplit]
    exact paramLoop_missing hpre (by rw [hz]; exact hundef)
  · apply tparamlist_run hreqs
    simp only [paramBase]
    rw [hsplit]
    exact paramLoop_missing hpre2 (by rw [hz]; exact getIdx_past_take items zpre.length)
  · intro pty'
    exact paramLoop_missing hpre (by rw [hz]; exact hundef)

theorem c10_paramlist_undefined_witness :
    (checkValue 9 basicTypes false false none
        (.tparamlist [("s", .tname "string", false), ("n", .tname "number", false)])
        (.arr [.str "a", .undef]) Ctx.empty
      = some (false, Ctx.empty.fail (some (.name "n")) (some "is missing") 1)) ∧
    (checkValue 9 basicTypes false false none
        (.tparamlist [("s", .tname "string", false), ("n", .tname "number", false)])
        (.arr [.str "a"]) Ctx.empty
      = some (false, Ctx.empty.fail (some (.name "n")) (some "is missing") 1)) := by
  have h := c10_paramlist_undefined 8 basicTypes false
    [("s", .tname "string", false), ("n", .tname "number", false)] [true, true]
    "n" (.tname "number") false
    [(("s", .tname "string", false), true)] [] [.str "a", .undef] Ctx.empty Ctx.empty
    (by rfl) (by rfl) (by rfl) (by rfl) (by rfl)
  exact ⟨h.1, h.2.1⟩

/-! ## Index signature vs extraneous keys (C6) -/

/-- Two-interface suite: `I` declares a string index signature and extends
`B`, which declares none. -/
def sBI : Suite := fullSuite
  [("B", .tiface [] [] none), ("I", .tiface ["B"] [] (some (.tname "string")))]

/-- **C6 is false as stated**: `I` declares an index signature, yet in strict
mode the object `{foo: "x"}` is rejected and its key `foo` is reported
`is extraneous` — by the base interface `B`, which has no index signature of
its own and runs its extraneous-key loop against the shared allowed-props
set; in plain mode the same value is accepted. -/
theorem c6_counterexample :
    (testV 20 sBI true (.tname "I") (.obj [("foo", .str "x")]) = some false ∧
     testV 20 sBI false (.tname "I") (.obj [("foo", .str "x")]) = some true) ∧
    (checkValue 20 sBI true false none (.tname "I") (.obj [("foo", .str "x")])
        Ctx.empty).map (fun rc => rc.2.frames.contains
          ⟨some (.name "foo"), some "is extraneous", 2⟩) = some true :=
  ⟨⟨rfl, rfl⟩, rfl⟩

/-- A key whose index-type check passes keeps the fork's context. -/
theorem indexStep_true {check : Value → Ctx → Option (Bool × Ctx)} {v : Value}
    {key : String} {c : Ctx} (hc : check (getProp v key) Ctx.empty = some (true, c)) :
    indexStep check v key = some c := by
  simp only [indexStep, hc]

/-- A completed index-loop step means the index-type checker was evaluated
on that key's value. -/
theorem indexStep_inv {check : Value → Ctx → Option (Bool × Ctx)} {v : Value}
    {key : String} {c : Ctx} (h : indexStep check v key = some c) :
    ∃ b c', check (getProp v key) Ctx.empty = some (b, c') := by
  simp only [indexStep] at h
  split at h
  · exact nomatch h
  · rename_i c' heq
    exact ⟨true, c', heq⟩
  · rename_i c' heq
    exact ⟨false, c', heq⟩

/-- **C6 (amended).** Within a single interface node the index-signature loop
and the extraneous-key loop are exclusive alternatives: with an index
signature, every own key of the object is evaluated against the index type
(in both modes), and keys that validate are accepted silently even in strict
mode; without an index signature, plain mode adds no key checks at all while
strict mode reports an unlisted key `is extraneous`.  The exclusion is per
node only — a base interface without its own index signature still runs its
extraneous-key loop against the shared allowed set, so the original claim
fails across base interfaces. -/
theorem c6_index_signature (f : Nat) (suite : Suite) (strict : Bool) :
    (∀ (bases : List String) (props : List (String × TType × Bool)) (ixt : TType)
        (v : Value) (ctx : Ctx) (r : Bool) (ctxF : Ctx),
      checkValue (f + 1) suite strict false none (.tiface bases props (some ixt)) v ctx
        = some (r, ctxF) →
      isObjectLike v = true →
      ∀ key ∈ ownKeys v, ∃ b c',
        checkValue f suite strict false none ixt (getProp v key) Ctx.empty = some (b, c')) ∧
    (∀ (ixt : TType) (v : Value) (ctx : Ctx),
      isObjectLike v = true →
      (∀ key ∈ ownKeys v, ∃ c',
        checkValue f suite strict false none ixt (getProp v key) Ctx.empty
          = some (true, c')) →
      checkValue (f + 1) suite strict false none (.tiface [] [] (some ixt)) v ctx
        = some (!ctx.failed, ctx)) ∧
    (∀ (v : Value) (ctx : Ctx),
      isObjectLike v = true →
      checkValue (f + 1) suite false false none (.tiface [] [] none) v ctx
        = some (!ctx.failed, ctx)) ∧
    (∀ (v : Value) (k : String) (ctx : Ctx),
      isObjectLike v = true → ownKeys v = [k] → ctx.failed = false →
      checkValue (f + 1) suite true false none (.tiface [] [] none) v ctx
        = some (false, ⟨true, ctx.frames ++ [⟨some (.name k), some "is extraneous", 2⟩]⟩)) := by
  refine ⟨?_, ?_, ?_, ?_⟩
  · intro bases props ixt v ctx r ctxF hrun hobj key hkey
    simp only [checkValue] at hrun
    split at hrun
    · exact nomatch hrun
    · rename_i baseTs hbase
      split at hrun
      · exact nomatch hrun
      · rename_i reqs hreqs
        split at hrun
        · split at hrun
          · exact nomatch hrun
          · rename_i c1 hc1
            split at hrun
            · exact nomatch hrun
            · rename_i c2 hc2
              split at hrun
              · exact nomatch hrun
              · rename_i c3 hc3
                obtain ⟨cs, hmap, -⟩ := forkAll_some hc3
                obtain ⟨child, -, hstep⟩ := mapM_some_forall hmap key hkey
                exact indexStep_inv hstep
        · rename_i hcond
          exact absurd hobj hcond
  · intro ixt v ctx hobj hkeys
    have hmap : (ownKeys v).mapM
        (indexStep (fun w c => checkValue f suite strict false none ixt w c) v)
        = some ((ownKeys v).map (fun _ => Ctx.empty)) := by
      apply mapM_of_forall
      intro k hk
      obtain ⟨c', hc'⟩ := hkeys k hk
      have hce : c' = Ctx.empty :=
        (checkValue_pok f suite strict false none ixt (getProp v k)).success_eq rfl hc'
      subst hce
      exact indexStep_true hc'
    obtain ⟨cf, cfr⟩ := ctx
    simp only [checkValue, List.mapM_nil, Option.pure_def, hobj, if_true, forkAll_nil,
      forkAll_of_mapM hmap]
    simp [Ctx.empty, List.any_map, Function.comp, forkAll_nil]
  · intro v ctx hobj
    cases v
    case arr items => rfl
    case obj fields => rfl
    all_goals exact nomatch hobj
  · intro v k ctx hobj hk hctx
    obtain ⟨cf, cfr⟩ := ctx
    obtain rfl : cf = false := hctx
    simp only [checkValue, List.mapM_nil, Option.pure_def, hobj, if_true, hk, forkAll_nil]
    rfl

theorem c6_index_signature_witness :
    (checkValue 7 basicTypes true false none
        (.tiface [] [] (some (.tname "string"))) (.obj [("foo", .str "x")]) Ctx.empty
      = some (true, Ctx.empty)) ∧
    (checkValue 7 basicTypes true false none (.tiface [] [] none)
        (.obj [("foo", .str "x")]) Ctx.empty
      = some (false, ⟨true, [⟨some (.name "foo"), some "is extraneous", 2⟩]⟩)) := by
  have h := c6_index_signature 6 basicTypes true
  refine ⟨?_, ?_⟩
  · have := h.2.1 (.tname "string") (.obj [("foo", .str "x")]) Ctx.empty rfl
      (by
        intro key hkey
        simp [ownKeys] at hkey
        subst hkey
        exact ⟨Ctx.empty, by rfl⟩)
    exact this
  · have := h.2.2.2 (.obj [("foo", .str "x")]) "foo" Ctx.empty rfl rfl rfl
    exact this

/-! ## Tuple `Rest` and compile-time errors (C8) -/

/-- A tuple with a `Rest` in non-final position, as the builders produce it. -/
def nonFinalRest : TType :=
  mkTuple [.trest (.sty (.tarray (.tname "number"))) none, .tname "string"]

/-- **C8 is false as stated**: a `Rest` whose spec is an array type placed in
a non-final tuple position raises no error at construction or first
compilation — the constructor only pops a trailing `Rest`, so the non-final
one stays in the fixed-arity list with its start index never set, compiles
successfully, and its compiled checker is vacuously true: the tuple accepts
an array whose first element matches nothing of the rest's item type. -/
theorem c8_counterexample :
    nonFinalRest
      = .ttuple [.trest (.sty (.tarray (.tname "number"))) none, .tname "string"] none ∧
    compileChecker 10 [] basicTypes nonFinalRest = some (.ok .built) ∧
    testV 20 basicTypes false nonFinalRest (.arr [.bool true, .str "s"]) = some true :=
  ⟨rfl, rfl, rfl⟩

/-- **C8 (amended).** The compile phase raises `Unknown type` for an
unresolved name, the `EnumLiteral` errors for a malformed enum literal, and
`Rest type must be an array` for a rest whose spec is not an array type; a
trailing `Rest` is popped out of the tuple's fixed-arity list with its start
index set to the fixed-arity length.  A non-final `Rest` with an array spec,
however, is not rejected: it stays in the fixed list, its start index is
never set, and its compiled checker accepts every value (see the
counterexample). -/
theorem c8_compile_errors (f : Nat) (building : List String) (suite : Suite) :
    (∀ (raw : List TType) (spec : TSpec) (st : Option Nat),
      raw.getLast? = some (.trest spec st) →
      mkTuple raw = .ttuple raw.dropLast (some (spec, raw.dropLast.length))) ∧
    (∀ (n : String), building.contains n = false → luSuite suite n = none →
      compileChecker (f + 1) building suite (.tname n)
        = some (.error ("Unknown type " ++ n))) ∧
    (∀ (en p : String), luSuite suite en = none →
      compileChecker f building suite (.tenumlit en p)
        = some (.error ("Unknown type " ++ en))) ∧
    (∀ (en p : String) (ms : List (String × Value)),
      luSuite suite en = some (.tenum ms) → ms.lookup p = none →
      compileChecker f building suite (.tenumlit en p)
        = some (.error ("Unknown value " ++ en ++ "." ++ p ++ " used in enumlit"))) ∧
    (∀ (st : TType) (start : Option Nat), (∀ it, st ≠ .tarray it) →
      compileChecker f building suite (.trest (.sty st) start)
        = some (.error "Rest type must be an array")) ∧
    (∀ (it : TType) (v : Value) (ctx : Ctx) (strict : Bool),
      checkValue (f + 1) suite strict false none (.trest (.sty (.tarray it)) none) v ctx
        = some (true, ctx)) := by
  refine ⟨?_, ?_, ?_, ?_, ?_, ?_⟩
  · intro raw spec st hlast
    simp only [mkTuple, hlast]
  · intro n hb hlu
    simp only [compileChecker, hb, Bool.false_eq_true, if_false, hlu]
  · intro en p hlu
    simp only [compileChecker, hlu]
  · intro en p ms hlu hlk
    simp only [compileChecker, hlu, hlk]
  · intro st start hna
    cases st
    case tarray it => exact absurd rfl (hna it)
    all_goals simp only [compileChecker]
  · intro it v ctx strict
    rfl

theorem c8_compile_errors_witness :
    mkTuple [.tname "string", .trest (.sty (.tarray (.tname "number"))) none]
      = .ttuple [.tname "string"] (some (.sty (.tarray (.tname "number")), 1)) ∧
    compileChecker 5 [] basicTypes (.tname "nosuch")
      = some (.error ("Unknown type " ++ "nosuch")) ∧
    compileChecker 4 [] basicTypes (.trest (.sty (.tname "number")) none)
      = some (.error "Rest type must be an array") := by
  have h := c8_compile_errors 4 [] basicTypes
  exact ⟨h.1 [.tname "string", .trest (.sty (.tarray (.tname "number"))) none]
      (.sty (.tarray (.tname "number"))) none rfl,
    h.2.1 "nosuch" rfl rfl,
    h.2.2.2.2.1 (.tname "number") none (fun it hc => nomatch hc)⟩

/-! ## Compile-phase termination (C4)

The `TName` trampoline protects exactly the recursion that flows through
named references: resolving a name adds it to `building`, and a re-entrant
call on it returns the thunk at once.  Recursion that bypasses `TName` nodes
— interface base lists (compiled directly from the resolved type) and
`Rest` specs given by name — enjoys no such protection and genuinely fails
to terminate on cyclic suites, so the termination statement is scoped to
types whose interfaces carry no bases and whose rest specs are inline. -/

mutual

/-- The type nodes whose compile-time recursion flows only through `TName`
nodes and structural children: interfaces carry no base list, rest specs are
inline types. -/
def nameSafe : TType → Bool
  | .basic _ => true
  | .tname _ => true
  | .literal _ => true
  | .tarray t => nameSafe t
  | .trest (.sty st) _ => nameSafe st
  | .trest (.sname _) _ => false
  | .ttuple ttypes restType =>
    nameSafeL ttypes &&
      (match restType with
       | none => true
       | some (spec, _) =>
         match spec with
         | .sty st => nameSafe st
         | .sname _ => false)
  | .tunion ts => nameSafeL ts
  | .tinter ts => nameSafeL ts
  | .tpart t => nameSafe t
  | .toption t => nameSafe t
  | .tenum _ => true
  | .tenumlit _ _ => true
  | .tiface bases props ix =>
    bases.isEmpty && nameSafeP props &&
      (match ix with
       | none => true
       | some it => nameSafe it)
  | .tfunc _ _ => true
  | .tparamlist params => nameSafeP params

/-- `nameSafe` over a list of types. -/
def nameSafeL : List TType → Bool
  | [] => true
  | t :: ts => nameSafe t && nameSafeL ts

/-- `nameSafe` over the types of a property or parameter list. -/
def nameSafeP : List (String × TType × Bool) → Bool
  | [] => true
  | p :: ps => nameSafe p.2.1 && nameSafeP ps

end

/-- Every type node has positive size. -/
theorem t_sizeOf_pos (t : TType) : 1 ≤ sizeOf t := by
  cases t <;> simp_arith

/-- A successful lookup exhibits the binding. -/
theorem lookup_mem {α : Type} {l : List (String × α)} {n : String} {v : α}
    (h : List.lookup n l = some v) : (n, v) ∈ l := by
  induction l with
  | nil => exact nomatch h
  | cons x xs ih =>
    obtain ⟨k, w⟩ := x
    rw [List.lookup] at h
    split at h
    · rename_i hbeq
      obtain rfl : n = k := by exact beq_iff_eq.mp hbeq
      obtain rfl : w = v := by cases h; rfl
      exact List.mem_cons_self _ _
    · exact List.mem_cons_of_mem _ (ih h)

/-- Sharpening a filter cannot lengthen it. -/
theorem filter_length_mono {α : Type} {p q : α → Bool}
    (hpq : ∀ a, q a = true → p a = true) :
    ∀ (l : List α), (l.filter q).length ≤ (l.filter p).length := by
  intro l
  induction l with
  | nil => exact Nat.le_refl 0
  | cons x xs ih =>
    by_cases hq : q x = true
    · have hp := hpq x hq
      simp only [List.filter_cons, hq, hp, if_true, List.length_cons]
      omega
    · have hq' : q x = false := by revert hq; cases q x <;> simp
      by_cases hp : p x = true
      · simp only [List.filter_cons, hq', hp, Bool.false_eq_true, if_false, if_true,
          List.length_cons]
        omega
      · have hp' : p x = false := by revert hp; cases p x <;> simp
        simp only [List.filter_cons, hq', hp', Bool.false_eq_true, if_false]
        exact ih

/-- Sharpening a filter at an element it previously kept strictly shortens
it. -/
theorem filter_length_lt {α : Type} {p q : α → Bool}
    (hpq : ∀ a, q a = true → p a = true) :
    ∀ {l : List α} {a : α}, a ∈ l → p a = true → q a = false →
    (l.filter q).length < (l.filter p).length := by
  intro l
  induction l with
  | nil =>
    intro a ha
    exact absurd ha (by simp)
  | cons x xs ih =>
    intro a ha hpa hqa
    rcases List.mem_cons.mp ha with rfl | ha'
    · have hmono := filter_length_mono hpq xs
      simp only [List.filter_cons, hqa, hpa, Bool.false_eq_true, if_false, if_true,
        List.length_cons]
      omega
    · have hlt := ih ha' hpa hqa
      by_cases hq : q x = true
      · have hp := hpq x hq
        simp only [List.filter_cons, hq, hp, if_true, List.length_cons]
        omega
      · have hq' : q x = false := by revert hq; cases q x <;> simp
        by_cases hp : p x = true
        · simp only [List.filter_cons, hq', hp, Bool.false_eq_true, if_false, if_true,
            List.length_cons]
          omega
        · have hp' : p x = false := by revert hp; cases p x <;> simp
          simp only [List.filter_cons, hq', hp', Bool.false_eq_true, if_false]
          exact hlt

/-- How many suite names are still unprotected by the `building` list. -/
def nameCount (suite : Suite) (building : List String) : Nat :=
  ((suite.map (·.1)).filter (fun m => !building.contains m)).length

/-- Installing a resolvable, not-yet-installed name on the trampoline strictly
decreases the count of unprotected names. -/
theorem nameCount_cons_lt {suite : Suite} {building : List String} {n : String}
    (hmem : n ∈ suite.map (·.1)) (hnb : building.contains n = false) :
    nameCount suite (n :: building) < nameCount suite building := by
  apply filter_length_lt (p := fun m => !building.contains m)
    (q := fun m => !((n :: building).contains m))
  · intro a ha
    simp only [List.contains_cons, Bool.not_eq_true', Bool.or_eq_false_iff] at ha ⊢
    exact ha.2
  · exact hmem
  · show (!building.contains n) = true
    rw [hnb]
    rfl
  · show (!((n :: building).contains n)) = false
    simp

/-- A step of `compileSeq` under a pointwise-stronger compiler. -/
theorem compileSeq_mono_pt {comp comp' : TType → Option (Except String CompileRes)}
    (hm : ∀ t r, comp t = some r → comp' t = some r) :
    ∀ {ts : List TType} {r : Except String CompileRes},
    compileSeq comp ts = some r → compileSeq comp' ts = some r := by
  intro ts
  induction ts with
  | nil => exact fun h => h
  | cons t ts ih =>
    intro r h
    simp only [compileSeq] at h ⊢
    split at h
    · exact nomatch h
    · rename_i e he
      rw [hm _ _ he]
      exact h
    · rename_i c he
      rw [hm _ _ he]
      exact ih h

/-- Fuel monotonicity of the compile phase: a settled outcome (error or
success) is stable under more fuel. -/
theorem compile_mono : ∀ (f : Nat) (building : List String) (suite : Suite)
    (t : TType) (r : Except String CompileRes),
    compileChecker f building suite t = some r →
    compileChecker (f + 1) building suite t = some r := by
  intro f
  induction f using Nat.strong_induction_on with
  | _ f ih =>
    intro building suite t r h
    have hm : ∀ f', f' < f → ∀ t' r',
        compileChecker f' building suite t' = some r' →
        compileChecker (f' + 1) building suite t' = some r' :=
      fun f' hf' t' r' h' => ih f' hf' building suite t' r' h'
    cases t with
    | tname n =>
      cases f with
      | zero =>
        simp only [compileChecker] at h ⊢
        split at h
        · rename_i hc
          rw [if_pos hc]
          exact h
        · exact nomatch h
      | succ f' =>
        simp only [compileChecker] at h ⊢
        split at h
        · rename_i hc
          rw [if_pos hc]
          exact h
        · rename_i hc
          rw [if_neg hc]
          split at h
          · exact h
          · rename_i tt hlu
            split at h
            · exact nomatch h
            · rename_i e he
              rw [ih f' (by omega) (n :: building) suite tt _ he]
              exact h
            · rename_i c he
              rw [ih f' (by omega) (n :: building) suite tt _ he]
              exact h
    | basic k =>
      simp only [compileChecker] at h ⊢
      exact h
    | literal v =>
      simp only [compileChecker] at h ⊢
      exact h
    | tenum ms =>
      simp only [compileChecker] at h ⊢
      exact h
    | tenumlit en p =>
      simp only [compileChecker] at h ⊢
      exact h
    | tfunc a b =>
      simp only [compileChecker] at h ⊢
      exact h
    | tarray t' =>
      cases f with
      | zero =>
        simp only [compileChecker] at h
        exact nomatch h
      | succ f' =>
        simp only [compileChecker] at h ⊢
        split at h
        · exact nomatch h
        · rename_i e he
          rw [hm f' (by omega) _ _ he]
          exact h
        · rename_i c he
          rw [hm f' (by omega) _ _ he]
          exact h
    | trest spec start =>
      cases spec with
      | sname s =>
        cases f with
        | zero =>
          simp only [compileChecker] at h ⊢
          split at h
          · exact h
          · exact nomatch h
          · exact h
        | succ f' =>
          simp only [compileChecker] at h ⊢
          split at h
          · exact h
          · rename_i it he
            split at h
            · exact nomatch h
            · rename_i e hee
              rw [hm f' (by omega) _ _ hee]
              exact h
            · rename_i c hee
              rw [hm f' (by omega) _ _ hee]
              exact h
          · exact h
      | sty st =>
        cases f with
        | zero =>
          simp only [compileChecker] at h ⊢
          split at h
          · exact h
          · exact nomatch h
          · exact h
        | succ f' =>
          simp only [compileChecker] at h ⊢
          split at h
          · exact h
          · rename_i it he
            split at h
            · exact nomatch h
            · rename_i e hee
              rw [hm f' (by omega) _ _ hee]
              exact h
            · rename_i c hee
              rw [hm f' (by omega) _ _ hee]
              exact h
          · exact h
    | ttuple ttypes restType =>
      cases f with
      | zero =>
        simp only [compileChecker] at h
        exact nomatch h
      | succ f' =>
        cases restType with
        | none =>
          simp only [compileChecker] at h ⊢
          split at h
          · exact nomatch h
          · rename_i e he
            rw [compileSeq_mono_pt (hm f' (by omega)) he]
            exact h
          · rename_i c he
            rw [compileSeq_mono_pt (hm f' (by omega)) he]
            exact h
        | some sr =>
          obtain ⟨spec, start⟩ := sr
          simp only [compileChecker] at h ⊢
          split at h
          · exact nomatch h
          · rename_i e he
            rw [compileSeq_mono_pt (hm f' (by omega)) he]
            exact h
          · rename_i c he
            rw [compileSeq_mono_pt (hm f' (by omega)) he]
            split at h
            · exact nomatch h
            · rename_i e hee
              rw [hm f' (by omega) _ _ hee]
              exact h
            · rename_i c2 hee
              rw [hm f' (by omega) _ _ hee]
              exact h
    | tunion ts =>
      cases f with
      | zero =>
        simp only [compileChecker] at h
        exact nomatch h
      | succ f' =>
        simp only [compileChecker] at h ⊢
        split at h
        · exact nomatch h
        · rename_i e he
          rw [compileSeq_mono_pt (hm f' (by omega)) he]
          exact h
        · rename_i c he
          rw [compileSeq_mono_pt (hm f' (by omega)) he]
          exact h
    | tinter ts =>
      cases f with
      | zero =>
        simp only [compileChecker] at h
        exact nomatch h
      | succ f' =>
        simp only [compileChecker] at h ⊢
        split at h
        · exact nomatch h
        · rename_i e he
          rw [compileSeq_mono_pt (hm f' (by omega)) he]
          exact h
        · rename_i c he
          rw [compileSeq_mono_pt (hm f' (by omega)) he]
          exact h
    | tpart t' =>
      cases f with
      | zero =>
        simp only [compileChecker] at h
        exact nomatch h
      | succ f' =>
        simp only [compileChecker] at h ⊢
        split at h
        · exact nomatch h
        · rename_i e he
          rw [hm f' (by omega) _ _ he]
          exact h
        · rename_i c he
          rw [hm f' (by omega) _ _ he]
          exact h
    | toption t' =>
      cases f with
      | zero =>
        simp only [compileChecker] at h
        exact nomatch h
      | succ f' =>
        simp only [compileChecker] at h ⊢
        split at h
        · exact nomatch h
        · rename_i e he
          rw [hm f' (by omega) _ _ he]
          exact h
        · rename_i c he
          rw [hm f' (by omega) _ _ he]
          exact h
    | tiface bases props ix =>
      cases f with
      | zero =>
        simp only [compileChecker] at h
        exact nomatch h
      | succ f' =>
        cases ix with
        | none =>
          simp only [compileChecker] at h ⊢
          split at h
          · exact h
          · rename_i baseTs hb
            split at h
            · exact nomatch h
            · rename_i e he
              rw [compileSeq_mono_pt (hm f' (by omega)) he]
              exact h
            · rename_i c he
              rw [compileSeq_mono_pt (hm f' (by omega)) he]
              split at h
              · exact nomatch h
              · rename_i e hee
                rw [compileSeq_mono_pt (hm f' (by omega)) hee]
                exact h
              · rename_i c2 hee
                rw [compileSeq_mono_pt (hm f' (by omega)) hee]
                exact h
        | some it =>
          simp only [compileChecker] at h ⊢
          split at h
          · exact h
          · rename_i baseTs hb
            split at h
            · exact nomatch h
            · rename_i e he
              rw [compileSeq_mono_pt (hm f' (by omega)) he]
              exact h
            · rename_i c he
              rw [compileSeq_mono_pt (hm f' (by omega)) he]
              split at h
              · exact nomatch h
              · rename_i e hee
                rw [compileSeq_mono_pt (hm f' (by omega)) hee]
                exact h
              · rename_i c2 hee
                rw [compileSeq_mono_pt (hm f' (by omega)) hee]
                split at h
                · exact nomatch h
                · rename_i e heee
                  rw [hm f' (by omega) _ _ heee]
                  exact h
                · rename_i c3 heee
                  rw [hm f' (by omega) _ _ heee]
                  exact h
    | tparamlist params =>
      cases f with
      | zero =>
        simp only [compileChecker] at h
        exact nomatch h
      | succ f' =>
        simp only [compileChecker] at h ⊢
        split at h
        · exact nomatch h
        · rename_i e he
          rw [compileSeq_mono_pt (hm f' (by omega)) he]
          exact h
        · rename_i c he
          rw [compileSeq_mono_pt (hm f' (by omega)) he]
          exact h

/-- Fuel monotonicity, iterated. -/
theorem compile_le {f g : Nat} (hfg : f ≤ g) {building : List String} {suite : Suite}
    {t : TType} {r : Except String CompileRes}
    (h : compileChecker f building suite t = some r) :
    compileChecker g building suite t = some r := by
  induction g with
  | zero =>
    obtain rfl : f = 0 := by omega
    exact h
  | succ g ihg =>
    rcases Nat.lt_or_ge f (g + 1) with hlt | hge
    · exact compile_mono g building suite t r (ihg (by omega))
    · obtain rfl : f = g + 1 := by omega
      exact h

/-- A common fuel serving a whole child list. -/
theorem compileSeq_exists {building : List String} {suite : Suite} :
    ∀ (ts : List TType),
    (∀ t ∈ ts, ∃ f r, compileChecker f building suite t = some r) →
    ∃ f r, compileSeq (fun t => compileChecker f building suite t) ts = some r := by
  intro ts
  induction ts with
  | nil => exact fun _ => ⟨0, .ok .built, rfl⟩
  | cons t ts ih =>
    intro h
    obtain ⟨f₁, r₁, h₁⟩ := h t (by simp)
    obtain ⟨f₂, r₂, h₂⟩ := ih (fun x hx => h x (by simp [hx]))
    have h₁' := compile_le (Nat.le_max_left f₁ f₂) h₁
    have h₂' : compileSeq (fun x => compileChecker (max f₁ f₂) building suite x) ts
        = some r₂ :=
      compileSeq_mono_pt (fun x rr hx => compile_le (Nat.le_max_right f₁ f₂) hx) h₂
    cases r₁ with
    | error e =>
      exact ⟨max f₁ f₂, .error e, by simp only [compileSeq, h₁']⟩
    | ok c =>
      exact ⟨max f₁ f₂, r₂, by simp only [compileSeq, h₁', h₂']⟩

theorem nameSafeL_mem {ts : List TType} (h : nameSafeL ts = true) :
    ∀ t ∈ ts, nameSafe t = true := by
  induction ts with
  | nil =>
    intro t ht
    exact absurd ht (by simp)
  | cons x xs ih =>
    intro t ht
    simp only [nameSafeL, Bool.and_eq_true] at h
    rcases List.mem_cons.mp ht with rfl | ht'
    · exact h.1
    · exact ih h.2 t ht'

theorem nameSafeP_mem {ps : List (String × TType × Bool)} (h : nameSafeP ps = true) :
    ∀ p ∈ ps, nameSafe p.2.1 = true := by
  induction ps with
  | nil =>
    intro p hp
    exact absurd hp (by simp)
  | cons x xs ih =>
    intro p hp
    simp only [nameSafeP, Bool.and_eq_true] at h
    rcases List.mem_cons.mp hp with rfl | hp'
    · exact h.1
    · exact ih h.2 p hp'

theorem list_sizeOf_pos {α : Type} [SizeOf α] (l : List α) : 1 ≤ sizeOf l := by
  cases l <;> simp_arith

/-- A property's type is smaller than the property list containing it. -/
theorem sizeOf_prop_lt {ps : List (String × TType × Bool)} {p : String × TType × Bool}
    (h : p ∈ ps) : sizeOf p.2.1 < sizeOf ps := by
  have h1 := List.sizeOf_lt_of_mem h
  obtain ⟨a, b, c⟩ := p
  simp only at h1 ⊢
  simp at h1
  omega

/-- Any `nameSafe` type (over a `nameSafe` suite) compiles with enough fuel:
the double induction is on the count of suite names not yet protected by the
`building` trampoline list, then on the size of the node. -/
theorem compile_terminates_aux (suite : Suite)
    (hsuite : ∀ p ∈ suite, nameSafe p.2 = true) :
    ∀ (k s : Nat) (building : List String) (t : TType),
      nameCount suite building < k → sizeOf t ≤ s → nameSafe t = true →
      ∃ f r, compileChecker f building suite t = some r := by
  intro k
  induction k with
  | zero =>
    intro s building t hk
    exact absurd hk (Nat.not_lt_zero _)
  | succ K ihK =>
    intro s
    induction s with
    | zero =>
      intro building t _ hs _
      have := t_sizeOf_pos t
      omega
    | succ S ihS =>
      intro building t hk hs hsafe
      cases t with
      | basic b => exact ⟨0, .ok .built, by simp only [compileChecker]⟩
      | literal v => exact ⟨0, .ok .built, by simp only [compileChecker]⟩
      | tenum ms => exact ⟨0, .ok .built, by simp only [compileChecker]⟩
      | tfunc a b => exact ⟨0, .ok .built, by simp only [compileChecker]⟩
      | tenumlit en p =>
        cases hlu : luSuite suite en with
        | none =>
          exact ⟨0, .error ("Unknown type " ++ en), by simp only [compileChecker, hlu]⟩
        | some tt =>
          cases tt
          case tenum ms =>
            cases hlk : ms.lookup p with
            | none =>
              exact ⟨0, .error ("Unknown value " ++ en ++ "." ++ p ++ " used in enumlit"),
                by simp only [compileChecker, hlu, hlk]⟩
            | some w =>
              exact ⟨0, .ok .built, by simp only [compileChecker, hlu, hlk]⟩
          all_goals
            exact ⟨0, .error ("Type " ++ en ++ " used in enumlit is not an enum type"),
              by simp only [compileChecker, hlu]⟩
      | tname n =>
        by_cases hb : building.contains n = true
        · have hbm : n ∈ building := by simpa using hb
          exact ⟨0, .ok .thunk, by simp [compileChecker, hbm]⟩
        · have hb' : building.contains n = false := by
            revert hb
            cases building.contains n <;> simp
          cases hlu : luSuite suite n with
          | none =>
            exact ⟨1, .error ("Unknown type " ++ n),
              by simp only [compileChecker, hb', Bool.false_eq_true, if_false, hlu]⟩
          | some tt =>
            have hpair := lookup_mem hlu
            have hmem : n ∈ suite.map (·.1) := List.mem_map.mpr ⟨(n, tt), hpair, rfl⟩
            have hsafett : nameSafe tt = true := hsuite (n, tt) hpair
            have hcnt := nameCount_cons_lt hmem hb'
            obtain ⟨f', r', h'⟩ := ihK (sizeOf tt) (n :: building) tt (by omega)
              (Nat.le_refl _) hsafett
            cases r' with
            | error e =>
              exact ⟨f' + 1, .error e,
                by simp only [compileChecker, hb', Bool.false_eq_true, if_false, hlu, h']⟩
            | ok c =>
              exact ⟨f' + 1, .ok .built,
                by simp only [compileChecker, hb', Bool.false_eq_true, if_false, hlu, h']⟩
      | tarray t' =>
        have hsz : sizeOf t' ≤ S := by
          have e1 := hs
          simp at e1
          omega
        have hsafe' : nameSafe t' = true := by simpa [nameSafe] using hsafe
        obtain ⟨f', r', h'⟩ := ihS building t' hk hsz hsafe'
        cases r' with
        | error e => exact ⟨f' + 1, .error e, by simp only [compileChecker, h']⟩
        | ok c => exact ⟨f' + 1, .ok .built, by simp only [compileChecker, h']⟩
      | tpart t' =>
        have hsz : sizeOf t' ≤ S := by
          have e1 := hs
          simp at e1
          omega
        have hsafe' : nameSafe t' = true := by simpa [nameSafe] using hsafe
        obtain ⟨f', r', h'⟩ := ihS building t' hk hsz hsafe'
        cases r' with
        | error e => exact ⟨f' + 1, .error e, by simp only [compileChecker, h']⟩
        | ok c => exact ⟨f' + 1, .ok .built, by simp only [compileChecker, h']⟩
      | toption t' =>
        have hsz : sizeOf t' ≤ S := by
          have e1 := hs
          simp at e1
          omega
        have hsafe' : nameSafe t' = true := by simpa [nameSafe] using hsafe
        obtain ⟨f', r', h'⟩ := ihS building t' hk hsz hsafe'
        cases r' with
        | error e => exact ⟨f' + 1, .error e, by simp only [compileChecker, h']⟩
        | ok c => exact ⟨f' + 1, .ok .built, by simp only [compileChecker, h']⟩
      | trest spec start =>
        cases spec with
        | sname s => simp [nameSafe] at hsafe
        | sty st =>
          have hsafe' : nameSafe st = true := by simpa [nameSafe] using hsafe
          cases st
          case tarray it =>
            have hsz : sizeOf it ≤ S := by
              have e1 := hs
              simp at e1
              omega
            have hsafeit : nameSafe it = true := by simpa [nameSafe] using hsafe'
            obtain ⟨f', r', h'⟩ := ihS building it hk hsz hsafeit
            cases r' with
            | error e => exact ⟨f' + 1, .error e, by simp only [compileChecker, h']⟩
            | ok c => exact ⟨f' + 1, .ok .built, by simp only [compileChecker, h']⟩
          all_goals
            exact ⟨0, .error "Rest type must be an array", by simp only [compileChecker]⟩
      | tunion ts =>
        have hsafe' : nameSafeL ts = true := by simpa [nameSafe] using hsafe
        have hchild : ∀ t' ∈ ts, ∃ f r, compileChecker f building suite t' = some r := by
          intro t' ht'
          have h1 := List.sizeOf_lt_of_mem ht'
          have e1 := hs
          simp at e1
          exact ihS building t' hk (by omega) (nameSafeL_mem hsafe' t' ht')
        obtain ⟨F, rs, hseq⟩ := compileSeq_exists ts hchild
        cases rs with
        | error e => exact ⟨F + 1, .error e, by simp only [compileChecker, hseq]⟩
        | ok c => exact ⟨F + 1, .ok .built, by simp only [compileChecker, hseq]⟩
      | tinter ts =>
        have hsafe' : nameSafeL ts = true := by simpa [nameSafe] using hsafe
        have hchild : ∀ t' ∈ ts, ∃ f r, compileChecker f building suite t' = some r := by
          intro t' ht'
          have h1 := List.sizeOf_lt_of_mem ht'
          have e1 := hs
          simp at e1
          exact ihS building t' hk (by omega) (nameSafeL_mem hsafe' t' ht')
        obtain ⟨F, rs, hseq⟩ := compileSeq_exists ts hchild
        cases rs with
        | error e => exact ⟨F + 1, .error e, by simp only [compileChecker, hseq]⟩
        | ok c => exact ⟨F + 1, .ok .built, by simp only [compileChecker, hseq]⟩
      | tparamlist params =>
        have hsafe' : nameSafeP params = true := by simpa [nameSafe] using hsafe
        have hchild : ∀ t' ∈ params.map (·.2.1),
            ∃ f r, compileChecker f building suite t' = some r := by
          intro t' ht'
          obtain ⟨p, hp, rfl⟩ := List.mem_map.mp ht'
          have h1 := sizeOf_prop_lt hp
          have e1 := hs
          simp at e1
          exact ihS building _ hk (by omega) (nameSafeP_mem hsafe' p hp)
        obtain ⟨F, rs, hseq⟩ := compileSeq_exists _ hchild
        cases rs with
        | error e => exact ⟨F + 1, .error e, by simp only [compileChecker, hseq]⟩
        | ok c => exact ⟨F + 1, .ok .built, by simp only [compileChecker, hseq]⟩
      | ttuple ttypes restType =>
        cases restType with
        | none =>
          have hsf : nameSafeL ttypes = true := by simpa [nameSafe] using hsafe
          have hchild : ∀ t' ∈ ttypes,
              ∃ f r, compileChecker f building suite t' = some r := by
            intro t' ht'
            have h1 := List.sizeOf_lt_of_mem ht'
            have e1 := hs
            simp at e1
            exact ihS building t' hk (by omega) (nameSafeL_mem hsf t' ht')
          obtain ⟨F, rs, hseq⟩ := compileSeq_exists ttypes hchild
          cases rs with
          | error e => exact ⟨F + 1, .error e, by simp only [compileChecker, hseq]⟩
          | ok c => exact ⟨F + 1, .ok .built, by simp only [compileChecker, hseq]⟩
        | some sr =>
          obtain ⟨spec, start⟩ := sr
          cases spec with
          | sname s => simp [nameSafe] at hsafe
          | sty st =>
            have hsf : nameSafeL ttypes = true ∧ nameSafe st = true := by
              simpa [nameSafe, Bool.and_eq_true] using hsafe
            have hchild : ∀ t' ∈ ttypes,
                ∃ f r, compileChecker f building suite t' = some r := by
              intro t' ht'
              have h1 := List.sizeOf_lt_of_mem ht'
              have e1 := hs
              simp at e1
              exact ihS building t' hk (by omega) (nameSafeL_mem hsf.1 t' ht')
            obtain ⟨F, rs, hseq⟩ := compileSeq_exists ttypes hchild
            have hsafest : nameSafe st = true := hsf.2
            have hszr : sizeOf (TType.trest (TSpec.sty st) (some start)) ≤ S := by
              have e1 := hs
              have e2 := list_sizeOf_pos ttypes
              simp at e1 ⊢
              omega
            have hnsr : nameSafe (TType.trest (TSpec.sty st) (some start)) = true := by
              simpa [nameSafe] using hsafest
            obtain ⟨f₂, r₂, h₂⟩ := ihS building _ hk hszr hnsr
            have hseq' := compileSeq_mono_pt
              (fun x rr hx => compile_le (Nat.le_max_left F f₂) hx) hseq
            have h₂' := compile_le (Nat.le_max_right F f₂) h₂
            cases rs with
            | error e =>
              exact ⟨max F f₂ + 1, .error e, by simp only [compileChecker, hseq']⟩
            | ok c =>
              cases r₂ with
              | error e =>
                exact ⟨max F f₂ + 1, .error e,
                  by simp only [compileChecker, hseq', h₂']⟩
              | ok c₂ =>
                exact ⟨max F f₂ + 1, .ok .built,
                  by simp only [compileChecker, hseq', h₂']⟩
      | tiface bases props ix =>
        cases ix with
        | none =>
          have hsf : bases.isEmpty = true ∧ nameSafeP props = true := by
            simpa [nameSafe, Bool.and_eq_true] using hsafe
          obtain ⟨hbe, hprops⟩ := hsf
          obtain rfl : bases = [] := by
            cases bases with
            | nil => rfl
            | cons b bs => simp at hbe
          have hchild : ∀ t' ∈ props.map (·.2.1),
              ∃ f r, compileChecker f building suite t' = some r := by
            intro t' ht'
            obtain ⟨p, hp, rfl⟩ := List.mem_map.mp ht'
            have h1 := sizeOf_prop_lt hp
            have e1 := hs
            simp at e1
            exact ihS building _ hk (by omega) (nameSafeP_mem hprops p hp)
          obtain ⟨F, rs, hseq⟩ := compileSeq_exists _ hchild
          cases rs with
          | error e =>
            exact ⟨F + 1, .error e,
              by simp only [compileChecker, List.mapM_nil, Option.pure_def, compileSeq,
                hseq]⟩
          | ok c =>
            exact ⟨F + 1, .ok .built,
              by simp only [compileChecker, List.mapM_nil, Option.pure_def, compileSeq,
                hseq]⟩
        | some it =>
          have hsf : (bases.isEmpty = true ∧ nameSafeP props = true) ∧
              nameSafe it = true := by
            simpa [nameSafe, Bool.and_eq_true] using hsafe
          obtain ⟨⟨hbe, hprops⟩, hix⟩ := hsf
          obtain rfl : bases = [] := by
            cases bases with
            | nil => rfl
            | cons b bs => simp at hbe
          have hchild : ∀ t' ∈ props.map (·.2.1),
              ∃ f r, compileChecker f building suite t' = some r := by
            intro t' ht'
            obtain ⟨p, hp, rfl⟩ := List.mem_map.mp ht'
            have h1 := sizeOf_prop_lt hp
            have e1 := hs
            simp at e1
            exact ihS building _ hk (by omega) (nameSafeP_mem hprops p hp)
          obtain ⟨F, rs, hseq⟩ := compileSeq_exists _ hchild
          have hszit : sizeOf it ≤ S := by
            have e1 := hs
            simp at e1
            omega
          obtain ⟨f₂, r₂, h₂⟩ := ihS building it hk hszit hix
          have hseq' := compileSeq_mono_pt
            (fun x rr hx => compile_le (Nat.le_max_left F f₂) hx) hseq
          have h₂' := compile_le (Nat.le_max_right F f₂) h₂
          cases rs with
          | error e =>
            exact ⟨max F f₂ + 1, .error e,
              by simp only [compileChecker, List.mapM_nil, Option.pure_def, compileSeq,
                hseq']⟩
          | ok c =>
            cases r₂ with
            | error e =>
              exact ⟨max F f₂ + 1, .error e,
                by simp only [compileChecker, List.mapM_nil, Option.pure_def, compileSeq,
                  hseq', h₂']⟩
            | ok c₂ =>
              exact ⟨max F f₂ + 1, .ok .built,
                by simp only [compileChecker, List.mapM_nil, Option.pure_def, compileSeq,
                  hseq', h₂']⟩

/-- **C4.** The `TName` trampoline: while a named type's checker is being
built (its name on the `building` list), a re-entrant `getChecker` call on
that name returns the installed thunk at once — before any recursion or fuel
is consumed — and, for suites whose compile-time recursion flows only
through names (base-free interfaces, inline rest specs), compiling any such
type reaches a settled result with enough fuel, recursively defined named
types included. -/
theorem c4_tname_trampoline (suite : Suite)
    (hsuite : ∀ p ∈ suite, nameSafe p.2 = true) :
    (∀ (f : Nat) (building : List String) (n : String), n ∈ building →
      compileChecker f building suite (.tname n) = some (.ok .thunk)) ∧
    (∀ t : TType, nameSafe t = true →
      ∃ f r, compileChecker f [] suite t = some r) := by
  constructor
  · intro f building n hn
    cases f with
    | zero => simp [compileChecker, hn]
    | succ f' => simp [compileChecker, hn]
  · intro t hsafe
    exact compile_terminates_aux suite hsuite (nameCount suite [] + 1) (sizeOf t) [] t
      (by omega) (Nat.le_refl _) hsafe

/-- The spec's recursive `Tree` interface and its suite. -/
def TreeT : TType :=
  .tiface [] [("value", .tname "number", false),
    ("children", .tarray (.tname "Tree"), false)] none

def sTree : Suite := fullSuite [("Tree", TreeT)]

theorem c4_tname_trampoline_witness :
    (compileChecker 3 ["Tree"] sTree (.tname "Tree") = some (.ok .thunk)) ∧
    (∃ f r, compileChecker f [] sTree (.tname "Tree") = some r) := by
  have h := c4_tname_trampoline sTree (by decide)
  exact ⟨h.1 3 ["Tree"] "Tree" (by simp), h.2 (.tname "Tree") (by decide)⟩

end TSIC
